import Mathlib

/-!
Verification development for the profile-parsing pipeline of
`function_app.py`.  The parsing core (`_read_pdf_with_metadata`'s
span-tagging loop, `_extract_contact_information`, `_parse_profile`,
`_experience_section_helper`, `_experienceHeaderHelper`) is embedded as
executable Lean definitions; raised Python exceptions are modelled with
`Except String`.  Regular-expression matching is embedded by hand-rolled
deterministic matchers that mirror the concrete patterns used in the
source (all of which are backtracking-free on their alphabets, checked
against CPython's `re` semantics).
-/

/-- Python `\s` (ASCII range, as used by the source's inputs). -/
def isSpaceChar (c : Char) : Bool :=
  c = ' ' || c = '\t' || c = '\n' || c = '\x0d' || c = '\x0b' || c = '\x0c'

def isUpperChar (c : Char) : Bool := 'A' ≤ c && c ≤ 'Z'

def isLowerChar (c : Char) : Bool := 'a' ≤ c && c ≤ 'z'

def isAlphaChar (c : Char) : Bool := isUpperChar c || isLowerChar c

def isDigitChar (c : Char) : Bool := '0' ≤ c && c ≤ '9'

/-- Python `\w` on the ASCII alphabet of the source's data. -/
def isWordChar (c : Char) : Bool := isAlphaChar c || isDigitChar c || c = '_'

/-- The dash alternatives `[-–—]` accepted by every pattern in the source. -/
def isDash (c : Char) : Bool := c = '-' || c = '–' || c = '—'

/-- The quote alternatives `["“”]` of the contact-header pattern. -/
def isQuote (c : Char) : Bool := c = '"' || c = '“' || c = '”'

/-- Characters of the email pattern's local part `[a-zA-Z0-9._%+-]`. -/
def isLocalChar (c : Char) : Bool :=
  isAlphaChar c || isDigitChar c || c = '.' || c = '_' || c = '%' || c = '+' || c = '-'

/-- Characters of the email pattern's domain part `[a-zA-Z0-9.-]`. -/
def isDomainChar (c : Char) : Bool := isAlphaChar c || isDigitChar c || c = '.' || c = '-'

/-- Python `str.strip()` on a character list. -/
def pyStripList (l : List Char) : List Char :=
  ((l.dropWhile isSpaceChar).reverse.dropWhile isSpaceChar).reverse

/-- Python `str.strip()`. -/
def pyStrip (s : String) : String := ⟨pyStripList s.data⟩

/-- Python `re.sub(r"[\"“”]", "", s)`: delete every quote character. -/
def stripQuotes (s : String) : String := ⟨s.data.filter (fun c => !isQuote c)⟩

/-- Scanner for `re.sub(r"•\s*", "", line)`.  The flag records that a
bullet was just consumed and trailing whitespace is being skipped. -/
def rbGo : Bool → List Char → List Char
  | _, [] => []
  | true, c :: rest =>
      if isSpaceChar c then rbGo true rest
      else if c = '•' then rbGo true rest
      else c :: rbGo false rest
  | false, c :: rest =>
      if c = '•' then rbGo true rest else c :: rbGo false rest

/-- Python `re.sub(r"•\s*", "", s)`. -/
def removeBullets (s : String) : String := ⟨rbGo false s.data⟩

/-! ### The contact header pattern

`re.match(r'[A-Z]\.\s[A-Za-z]+(?:\s[A-Za-z]+)?\s[-–—]\s["“”](.+?)["“”]', t)`.
Every quantified subpattern is followed by input that cannot extend it, so
the regex is deterministic and a state scanner is an exact embedding. -/

/-- Inside the closing-quote search of `(.+?)["“”]`: at least one content
character has been consumed; `.` does not cross a newline. -/
def mchFindClose : List Char → Bool
  | [] => false
  | c :: rest => if isQuote c then true else if c = '\n' then false else mchFindClose rest

/-- First content character of `(.+?)` (must exist, must not be a newline). -/
def mchContent1 : List Char → Bool
  | [] => false
  | c :: rest => if c = '\n' then false else mchFindClose rest

/-- Opening quote of the quoted phrase. -/
def mchQuoteOpen : List Char → Bool
  | [] => false
  | c :: rest => if isQuote c then mchContent1 rest else false

/-- After the dash: exactly one `\s`, then the quoted phrase. -/
def mchAfterDash : List Char → Bool
  | [] => false
  | c :: rest => if isSpaceChar c then mchQuoteOpen rest else false

/-- After the single `\s` following the second name word: must be a dash. -/
def mchAfterWs2 : List Char → Bool
  | [] => false
  | c :: rest => if isDash c then mchAfterDash rest else false

/-- Inside the optional second name word `[A-Za-z]+`. -/
def mchInWord2 : List Char → Bool
  | [] => false
  | c :: rest =>
      if isAlphaChar c then mchInWord2 rest
      else if isSpaceChar c then mchAfterWs2 rest else false

/-- After the single `\s` following the first name word: a dash starts the
separator, a letter starts the optional second word. -/
def mchAfterWs1 : List Char → Bool
  | [] => false
  | c :: rest =>
      if isDash c then mchAfterDash rest
      else if isAlphaChar c then mchInWord2 rest
      else false

/-- Inside the first name word `[A-Za-z]+` (at least one letter consumed). -/
def mchInWord1 : List Char → Bool
  | [] => false
  | c :: rest =>
      if isAlphaChar c then mchInWord1 rest
      else if isSpaceChar c then mchAfterWs1 rest else false

/-- First character of the first name word. -/
def mchWord1 : List Char → Bool
  | [] => false
  | c :: rest => if isAlphaChar c then mchInWord1 rest else false

/-- `re.match` of the contact header pattern (prefix match, trailing input
unconstrained). -/
def matchContactHeader (s : String) : Bool :=
  match s.data with
  | c0 :: c1 :: c2 :: rest =>
      isUpperChar c0 && c1 = '.' && isSpaceChar c2 && mchWord1 rest
  | _ => false

/-! ### The email pattern

`re.search(r'[a-zA-Z0-9._%+-]+@[a-zA-Z0-9.-]+\.[a-zA-Z]{2,}', t)` returning
the matched substring.  `re.search` takes the leftmost viable start; the
greedy domain backtracks to the rightmost dot followed by ≥ 2 letters. -/

/-- Rightmost `\.[a-zA-Z]{2,}` inside the remainder of the maximal domain
run (at least one domain character lies to the left of the current
position).  Returns the matched characters from the current position on. -/
def dmAfterOne : List Char → Option (List Char)
  | [] => none
  | c :: rest =>
      match dmAfterOne rest with
      | some m => some (c :: m)
      | none =>
          if c = '.' then
            let tld := rest.takeWhile isAlphaChar
            if 2 ≤ tld.length then some ('.' :: tld) else none
          else none

/-- After a nonempty local part: expect `@`, then the greedy domain with
its backtracked `\.[a-zA-Z]{2,}` suffix. -/
def emailAtAfterLocal (loc : List Char) : List Char → Option (List Char)
  | [] => none
  | c :: r2 =>
      if c = '@' then
        match r2.takeWhile isDomainChar with
        | d0 :: dr =>
            match dmAfterOne dr with
            | some m => some (loc ++ '@' :: d0 :: m)
            | none => none
        | [] => none
      else none

/-- Attempt an email match starting exactly at the head of `l`. -/
def emailAt (l : List Char) : Option (List Char) :=
  match l.takeWhile isLocalChar with
  | [] => none
  | lc :: loct => emailAtAfterLocal (lc :: loct) (l.drop (lc :: loct).length)

/-- `re.search` scan: try every start position left to right. -/
def searchEmailChars : List Char → Option (List Char)
  | [] => none
  | c :: rest =>
      match emailAt (c :: rest) with
      | some m => some m
      | none => searchEmailChars rest

/-- `re.search(email_pattern, s)` returning `.group()` of the match. -/
def searchEmail (s : String) : Option String :=
  (searchEmailChars s.data).map fun m => ⟨m⟩

/-! ### `re.split(r'\s*[-–—]\s*', s)` (used on the contact header). -/

/-- If the input starts with `\s*` then a dash, consume the separator
(including the greedy `\s*` after the dash) and return the remainder. -/
def dashAfterWs : List Char → Option (List Char)
  | [] => none
  | c :: rest =>
      if isDash c then some (rest.dropWhile isSpaceChar)
      else if isSpaceChar c then dashAfterWs rest
      else none

/-- Fueled splitter: at each position, a separator match emits the piece
accumulated so far; otherwise the character joins the current piece.  The
fuel only needs to exceed the input length. -/
def sdGo : Nat → List Char → List Char → List (List Char)
  | 0, acc, _ => [acc.reverse]
  | _ + 1, acc, [] => [acc.reverse]
  | fuel + 1, acc, c :: rest =>
      match dashAfterWs (c :: rest) with
      | some r => acc.reverse :: sdGo fuel [] r
      | none => sdGo fuel (c :: acc) rest

/-- `re.split(r'\s*[-–—]\s*', s)`. -/
def splitDashes (s : String) : List String :=
  (sdGo (s.data.length + 1) [] s.data).map fun p => ⟨p⟩

/-! ### `re.split(r'\s[-–—]\s', s)` (used on experience headers). -/

def ssGo : List Char → List Char → List (List Char)
  | acc, a :: b :: c :: rest =>
      if isSpaceChar a && isDash b && isSpaceChar c then
        acc.reverse :: ssGo [] rest
      else ssGo (a :: acc) (b :: c :: rest)
  | acc, a :: rest => ssGo (a :: acc) rest
  | acc, [] => [acc.reverse]

/-- `re.split(r'\s[-–—]\s', s)`. -/
def splitSpacedDashes (s : String) : List String :=
  (ssGo [] s.data).map fun p => ⟨p⟩

/-! ### The experience header pattern

`re.match(r'^[A-Z][a-z]*(?:\s+\w+)*\s[-–—]\s\w+(?:\s\w+)*\s[-–—]\s\w+(?:\s\w+)*', l)`.
Again deterministic: each whitespace run decides uniquely whether it
continues a word group or starts a separator. -/

/-- After the second separator: one word character suffices (the final
`(?:\s\w+)*` matches the empty string and the match is unanchored). -/
def xhSep2b : List Char → Bool
  | [] => false
  | c :: _ => isWordChar c

def xhSep2a : List Char → Bool
  | [] => false
  | c :: rest => if isSpaceChar c then xhSep2b rest else false

/-- Middle field `\w+(?:\s\w+)*\s[-–—]\s\w+…`.  The flag is `true` while
inside a word, `false` when exactly one `\s` has just been consumed (a
dash there starts the second separator; two spaces in a row are fatal). -/
def xhF2 : Bool → List Char → Bool
  | _, [] => false
  | true, c :: rest =>
      if isWordChar c then xhF2 true rest
      else if isSpaceChar c then xhF2 false rest
      else false
  | false, c :: rest =>
      if isDash c then xhSep2a rest
      else if isWordChar c then xhF2 true rest
      else false

/-- Single `\s` after the first dash, then the middle field begins. -/
def xhSep1b : List Char → Bool
  | [] => false
  | c :: rest => if isWordChar c then xhF2 true rest else false

def xhSep1a : List Char → Bool
  | [] => false
  | c :: rest => if isSpaceChar c then xhSep1b rest else false

/-- First field `(?:\s+\w+)*\s[-–—]\s…`.  State 0: inside a word; state 1:
exactly one `\s` consumed (dash here starts the first separator); state 2:
two or more `\s` consumed (words may still follow, a dash may not). -/
def xhF1 : Nat → List Char → Bool
  | _, [] => false
  | 0, c :: rest =>
      if isWordChar c then xhF1 0 rest
      else if isSpaceChar c then xhF1 1 rest
      else false
  | 1, c :: rest =>
      if isDash c then xhSep1a rest
      else if isWordChar c then xhF1 0 rest
      else if isSpaceChar c then xhF1 2 rest
      else false
  | _ + 2, c :: rest =>
      if isWordChar c then xhF1 0 rest
      else if isSpaceChar c then xhF1 2 rest
      else false

/-- Leading `[A-Z][a-z]*` of the first field. -/
def xhLow : List Char → Bool
  | [] => false
  | c :: rest =>
      if isLowerChar c then xhLow rest
      else if isSpaceChar c then xhF1 1 rest
      else false

/-- `re.match` of the experience header pattern. -/
def matchExpHeader (s : String) : Bool :=
  match s.data with
  | c :: rest => isUpperChar c && xhLow rest
  | [] => false

/-! ### Data model -/

/-- One tagged text fragment, as produced by `_read_pdf_with_metadata`
(`section` is a Lean keyword, so the field is called `sect`). -/
structure Item where
  sect : Option String
  text : String
deriving DecidableEq, Repr

structure ContactInfo where
  name : Option String
  email : Option String
  job_title : Option String
deriving DecidableEq, Repr

/-- Header triple built by `_experienceHeaderHelper`. -/
structure ExpHeader where
  project_title : Option String
  project_position : Option String
  project_industry : Option String
deriving DecidableEq, Repr

/-- One record built by `_experience_section_helper`.  The details value
is an `Option` because the Python code can pair a header with
`project_contents = None`. -/
structure ProjRec where
  project_header : ExpHeader
  project_details : Option (List String)
deriving DecidableEq, Repr

/-- Shape of serialized JSON values in the output document. -/
inductive Json where
  | null
  | str (s : String)
  | arr (xs : List Json)
  | obj (fields : List (String × Json))
deriving Repr

structure SectionEntry where
  section_name : String
  section_content : Json
deriving Repr

structure ProfileDoc where
  sharePointRef : Option String
  sections : List SectionEntry
deriving Repr

def REQUIRED_SECTIONS : List String :=
  ["Name", "Email", "Job Title", "Executive Summary", "Technical Expertise",
   "Functional Expertise", "Experience", "Mobility", "Industry Sectors",
   "Languages Spoken", "Certifications", "Methodologies"]

def BULLET_SECTIONS : List String :=
  ["Technical Expertise", "Functional Expertise", "Industry Sectors",
   "Languages Spoken", "Certifications", "Methodologies"]

def LONGFORM_SECTIONS : List String :=
  ["Executive Summary", "Mobility", "Name", "Email", "Job Title"]

/-! ### `_read_pdf_with_metadata` — the span-tagging loop

The walk over pages/blocks/lines/spans linearizes to an ordered list of
span texts; the loop strips each, switches the section cursor on an exact
match with a required section name, and otherwise emits a tagged item. -/

def readAux (cur : Option String) : List String → List Item
  | [] => []
  | s :: rest =>
      let t := pyStrip s
      if t ∈ REQUIRED_SECTIONS then readAux (some t) rest
      else ⟨cur, t⟩ :: readAux cur rest

def _read_pdf_with_metadata (spans : List String) : List Item :=
  readAux none spans

/-- The reader's section cursor after a list of spans. -/
def rdCursor (cur : Option String) : List String → Option String
  | [] => cur
  | s :: rest =>
      let t := pyStrip s
      if t ∈ REQUIRED_SECTIONS then rdCursor (some t) rest else rdCursor cur rest

/-! ### `_extract_contact_information`

Python iterates over `content` by index while calling `content.remove`
on matches, so the element following a removed one is skipped.  The loop
is embedded with an explicit index and a structural fuel (the initial
length is always sufficient: the index grows each step and the list never
grows, so the `none` lookup and the fuel exhaustion coincide). -/

def scanLoop : Nat → List Item → Nat → Option String → Option String →
    List Item × Option String × Option String
  | 0, l, _, h, e => (l, h, e)
  | fuel + 1, l, i, h, e =>
      match l.get? i with
      | none => (l, h, e)
      | some item =>
          if matchContactHeader item.text then
            scanLoop fuel (l.erase item) (i + 1) (some item.text) e
          else
            match searchEmail item.text with
            | some m => scanLoop fuel (l.erase item) (i + 1) h (some m)
            | none => scanLoop fuel l (i + 1) h e

/-- The code after the scan loop (lines 129–136): split the header,
build the `ContactInfo` dict.  The `re.sub(…, None)` `TypeError` raised
when no header was found, and the (unreachable-in-practice) `IndexError`
on a one-piece split, are modelled as `Except.error`. -/
def contactFinish : List Item × Option String × Option String →
    List Item × Except String ContactInfo
  | (content', none, _) =>
      (content', .error "TypeError: expected string or bytes-like object")
  | (content', some h, email) =>
      match splitDashes h with
      | p0 :: p1 :: _ =>
          let jt := stripQuotes p1
          (content', .ok
            { name := some p0
              email := if email = some "" then none else email
              job_title := if jt = "" then none else some jt })
      | _ => (content', .error "IndexError: list index out of range")

/-- Full `_extract_contact_information`: the mutating scan followed by
header splitting; returns the mutated content list with the result. -/
def _extract_contact_information (content : List Item) :
    List Item × Except String ContactInfo :=
  contactFinish (scanLoop content.length content 0 none none)

/-! ### The section aggregation loop of `_parse_profile` (lines 158–167). -/

/-- `current_section = item["section"].strip() if item["section"] else
current_section`: a truthy hint moves the cursor to the stripped hint. -/
def hintStep (cur : Option String) : Option String → Option String
  | none => cur
  | some s => if s = "" then cur else some (pyStrip s)

/-- Texts collected for section `sec`, starting from cursor `cur`.  A
fragment contributes its stripped text when the cursor is truthy, the
text nonempty, and the cursor a key of `sections_map`. -/
def aggAux (cur : Option String) (items : List Item) (sec : String) : List String :=
  match items with
  | [] => []
  | i :: rest =>
      let t := pyStrip i.text
      let cur' := hintStep cur i.sect
      (if cur' = some sec ∧ sec ≠ "" ∧ t ≠ "" ∧ sec ∈ REQUIRED_SECTIONS
       then [t] else []) ++ aggAux cur' rest sec

def aggregate (items : List Item) (sec : String) : List String :=
  aggAux none items sec

/-- The aggregation loop's cursor after processing `items`. -/
def agCursor (cur : Option String) : List Item → Option String
  | [] => cur
  | i :: rest => agCursor (hintStep cur i.sect) rest

/-! ### `_experienceHeaderHelper` -/

def _experienceHeaderHelper (line : String) : Except String ExpHeader :=
  let cleaned := pyStrip (removeBullets line)
  let sections := (splitSpacedDashes cleaned).map pyStrip |>.filter (· ≠ "")
  match sections.get? 0, sections.get? 1, sections.get? 2 with
  | some s0, some s1, some s2 =>
      .ok { project_title := if s0 = "" then none else some s0
            project_position := if s1 = "" then none else some s1
            project_industry := if s2 = "" then none else some s2 }
  | _, _, _ => .error "IndexError: list index out of range"

/-! ### `_experience_section_helper`

State: the pending `project_contents` buffer (`none` ≙ Python `None`),
the accumulated header list `project_info` and flushed buffer list
`project_details`.  Both `None` and `[]` are falsy in Python, hence the
`isTruthy` test below. -/

def bufTruthy : Option (List String) → Bool
  | some (_ :: _) => true
  | _ => false

def expGo : List String → Option (List String) → List ExpHeader →
    List (Option (List String)) → Except String (List ProjRec)
  | [], contents, info, details =>
      .ok (List.zipWith (fun h d => ⟨h, d⟩) info (details ++ [contents]))
  | line :: rest, contents, info, details =>
      if matchExpHeader line then
        match _experienceHeaderHelper line with
        | .error e => .error e
        | .ok h =>
            if bufTruthy contents then
              expGo rest (some []) (info ++ [h]) (details ++ [contents])
            else expGo rest contents (info ++ [h]) details
      else
        if bufTruthy contents then
          expGo rest (some (contents.getD [] ++ [line])) info details
        else expGo rest (some [line]) info details

def _experience_section_helper (lines : List String) : Except String (List ProjRec) :=
  expGo lines none [] []

/-! ### Serialization shapes and the document assembler (lines 184–198) -/

def optStrJson : Option String → Json
  | none => .null
  | some s => .str s

/-- JSON rendering of one experience record, exactly as `json.dumps` sees
the dict built at lines 243–247: a `project_header` sub-dict and a
sibling `project_details` list (or null). -/
def projToJson (r : ProjRec) : Json :=
  .obj [("project_header",
         .obj [("project_title", optStrJson r.project_header.project_title),
               ("project_position", optStrJson r.project_header.project_position),
               ("project_industry", optStrJson r.project_header.project_industry)]),
        ("project_details",
         match r.project_details with
         | none => .null
         | some ds => .arr (ds.map .str))]

/-- Entries for one of the Name/Email/Job Title sections: after the
overwrite at lines 169–171 the map holds the bare contact value; the
assembler's truthiness guard skips `None` and the empty string, and the
longform branch emits the value itself (a bare string). -/
def contactEntries (s : String) (v : Option String) : List SectionEntry :=
  match v with
  | none => []
  | some t => if t = "" then [] else [⟨s, .str t⟩]

/-- Entries for a longform section fed by aggregation (Executive
Summary, Mobility): one entry carrying the whole ordered list. -/
def longformEntries (s : String) (vals : List String) : List SectionEntry :=
  match vals with
  | [] => []
  | _ => [⟨s, .arr (vals.map .str)⟩]

/-- Entries for a bullet-style section: one entry per truthy value. -/
def bulletEntries (s : String) (vals : List String) : List SectionEntry :=
  (vals.filter (· ≠ "")).map fun v => ⟨s, .str v⟩

/-- Entries for Experience: one entry per record (a nonempty dict is
always truthy). -/
def expEntries (projects : List ProjRec) : List SectionEntry :=
  projects.map fun r => ⟨"Experience", projToJson r⟩

/-- The assembly loop over `sections_map` (dict insertion order is the
declaration order of `REQUIRED_SECTIONS`). -/
def assemble (contact : ContactInfo) (smap : String → List String)
    (projects : List ProjRec) : List SectionEntry :=
  contactEntries "Name" contact.name
    ++ contactEntries "Email" contact.email
    ++ contactEntries "Job Title" contact.job_title
    ++ longformEntries "Executive Summary" (smap "Executive Summary")
    ++ bulletEntries "Technical Expertise" (smap "Technical Expertise")
    ++ bulletEntries "Functional Expertise" (smap "Functional Expertise")
    ++ expEntries projects
    ++ longformEntries "Mobility" (smap "Mobility")
    ++ bulletEntries "Industry Sectors" (smap "Industry Sectors")
    ++ bulletEntries "Languages Spoken" (smap "Languages Spoken")
    ++ bulletEntries "Certifications" (smap "Certifications")
    ++ bulletEntries "Methodologies" (smap "Methodologies")

/-! ### `_parse_profile` and the composed pipeline -/

def _parse_profile (content : List Item) : Except String ProfileDoc :=
  match _extract_contact_information content with
  | (_, .error e) => .error e
  | (content', .ok contact) =>
      let smap := aggregate content'
      match (if smap "Experience" = [] then .ok []
             else _experience_section_helper (smap "Experience") :
               Except String (List ProjRec)) with
      | .error e => .error e
      | .ok projects =>
          .ok { sharePointRef := none
                sections := assemble contact smap projects }

/-- Reader followed by the parser: the computational core of
`ProfileCreatedOrModified` once a span sequence has been produced. -/
def parseFromSpans (spans : List String) : Except String ProfileDoc :=
  _parse_profile (_read_pdf_with_metadata spans)

/-! ### Shape checkers used by the claims about serialized output -/

def Json.isArr : Json → Bool
  | .arr _ => true
  | _ => false

/-- A string that is neither empty nor whitespace-only. -/
def strOK (s : String) : Bool := pyStrip s != ""

def nullOrStrOK : Json → Bool
  | .null => true
  | .str s => strOK s
  | _ => false

/-- The flat project shape asserted by the specification: four top-level
fields, optional strings and a string list. -/
def isFlatProjectJson : Json → Bool
  | .obj [("project_title", t), ("project_position", p),
          ("project_industry", i), ("project_details", d)] =>
      nullOrStrOK t && nullOrStrOK p && nullOrStrOK i && d.isArr
  | _ => false

/-- The nested project shape the code actually serializes. -/
def isNestedProjectJson : Json → Bool
  | .obj [("project_header",
           .obj [("project_title", t), ("project_position", p),
                 ("project_industry", i)]),
          ("project_details", d)] =>
      (match t with | .null => true | .str _ => true | _ => false) &&
      (match p with | .null => true | .str _ => true | _ => false) &&
      (match i with | .null => true | .str _ => true | _ => false) &&
      (match d with
       | .null => true
       | .arr xs => xs.all fun x => match x with | .str _ => true | _ => false
       | _ => false)
  | _ => false

/-- Whitespace-freeness of one entry's content, for the shapes the
assembler can emit (bare string, list of strings, project record). -/
def contentOK : Json → Bool
  | .null => false
  | .str s => strOK s
  | .arr xs => xs.all fun x => match x with | .str s => strOK s | _ => false
  | .obj [("project_header",
           .obj [("project_title", t), ("project_position", p),
                 ("project_industry", i)]),
          ("project_details", d)] =>
      nullOrStrOK t && nullOrStrOK p && nullOrStrOK i &&
      (match d with
       | .null => true
       | .arr xs => xs.all fun x => match x with | .str s => strOK s | _ => false
       | _ => false)
  | .obj _ => false

/-! ### Basic lemmas about the string primitives -/

theorem mem_dropWhile_of_not {p : Char → Bool} {l : List Char} {c : Char}
    (hc : c ∈ l) (hp : p c = false) : c ∈ l.dropWhile p := by
  have hsplit := List.takeWhile_append_dropWhile p l
  rw [← hsplit] at hc
  rcases List.mem_append.mp hc with h | h
  · have := List.mem_takeWhile_imp h
    rw [hp] at this; cases this
  · exact h

theorem pyStripList_eq_nil_iff {l : List Char} :
    pyStripList l = [] ↔ ∀ x ∈ l, isSpaceChar x = true := by
  unfold pyStripList
  constructor
  · intro h x hx
    by_contra hws
    have hws' : isSpaceChar x = false := by
      cases hxx : isSpaceChar x
      · rfl
      · exact absurd hxx hws
    have h1 : x ∈ l.dropWhile isSpaceChar := mem_dropWhile_of_not hx hws'
    have h2 : x ∈ (l.dropWhile isSpaceChar).reverse := List.mem_reverse.mpr h1
    have h3 : x ∈ (l.dropWhile isSpaceChar).reverse.dropWhile isSpaceChar :=
      mem_dropWhile_of_not h2 hws'
    have h4 : (l.dropWhile isSpaceChar).reverse.dropWhile isSpaceChar = [] := by
      have := congrArg List.reverse h
      simpa using this
    rw [h4] at h3; cases h3
  · intro h
    have h1 : l.dropWhile isSpaceChar = [] :=
      List.dropWhile_eq_nil_iff.mpr (fun x hx => h x hx)
    rw [h1]; rfl

theorem mem_pyStripList_of_not {l : List Char} {c : Char}
    (hc : c ∈ l) (hp : isSpaceChar c = false) : c ∈ pyStripList l := by
  unfold pyStripList
  refine List.mem_reverse.mpr (mem_dropWhile_of_not (List.mem_reverse.mpr ?_) hp)
  exact mem_dropWhile_of_not hc hp

theorem mem_of_mem_pyStripList {l : List Char} {c : Char}
    (hc : c ∈ pyStripList l) : c ∈ l := by
  unfold pyStripList at hc
  have h1 := List.mem_reverse.mp hc
  have h2 := (List.dropWhile_sublist isSpaceChar).mem h1
  have h3 := List.mem_reverse.mp h2
  exact (List.dropWhile_sublist isSpaceChar).mem h3

theorem pyStrip_eq_empty_iff {s : String} :
    pyStrip s = "" ↔ ∀ x ∈ s.data, isSpaceChar x = true := by
  constructor
  · intro h
    exact pyStripList_eq_nil_iff.mp (congrArg String.data h)
  · intro h
    exact String.ext_iff.mpr (pyStripList_eq_nil_iff.mpr h)

/-- A nonempty strip result is itself non-whitespace: `strip` is
observationally idempotent. -/
theorem strOK_pyStrip {u : String} (h : pyStrip u ≠ "") : strOK (pyStrip u) = true := by
  have hdata : (pyStrip u).data = pyStripList u.data := rfl
  have hne : pyStripList u.data ≠ [] := by
    intro hh
    exact h (String.ext_iff.mpr (hdata.trans hh))
  have hex : ¬ ∀ x ∈ u.data, isSpaceChar x = true := by
    intro hall; exact hne (pyStripList_eq_nil_iff.mpr hall)
  push_neg at hex
  rcases hex with ⟨c, hcmem, hcws⟩
  have hcws' : isSpaceChar c = false := by
    cases hxx : isSpaceChar c
    · rfl
    · exact absurd hxx hcws
  have hcv : c ∈ (pyStrip u).data := by
    rw [hdata]; exact mem_pyStripList_of_not hcmem hcws'
  unfold strOK
  rw [bne_iff_ne]
  intro hval
  have : ∀ x ∈ (pyStrip u).data, isSpaceChar x = true := pyStrip_eq_empty_iff.mp hval
  rw [this c hcv] at hcws'; cases hcws'

/-- A string containing a non-whitespace character strips to nonempty. -/
theorem strOK_of_mem {s : String} {c : Char} (hc : c ∈ s.data)
    (hp : isSpaceChar c = false) : strOK s = true := by
  unfold strOK
  rw [bne_iff_ne]
  intro hval
  have := pyStrip_eq_empty_iff.mp hval c hc
  rw [this] at hp; cases hp

/-! ### Lemmas about the contact-extraction scan -/

theorem scanLoop_sublist (fuel : Nat) :
    ∀ (l : List Item) (i : Nat) (h e : Option String),
      (scanLoop fuel l i h e).1.Sublist l := by
  induction fuel with
  | zero => intro l i h e; exact List.Sublist.refl l
  | succ n ih =>
      intro l i h e
      rw [scanLoop]
      cases hg : l.get? i with
      | none => simp only [hg]; exact List.Sublist.refl l
      | some item =>
          simp only [hg]
          cases hm : matchContactHeader item.text
          · simp only [Bool.false_eq_true, if_false]
            cases hs : searchEmail item.text with
            | none => simp only [hs]; exact ih l (i + 1) h e
            | some m =>
                simp only [hs]
                exact (ih (l.erase item) (i + 1) h (some m)).trans
                  (List.erase_sublist item l)
          · simp only [if_true]
            exact (ih (l.erase item) (i + 1) (some item.text) e).trans
              (List.erase_sublist item l)

/-- A header recorded by the scan is the text of some input fragment that
matches the header pattern. -/
theorem scanLoop_header_src (fuel : Nat) :
    ∀ (l : List Item) (i : Nat) (h e : Option String) (hd : String),
      (scanLoop fuel l i h e).2.1 = some hd →
      h = some hd ∨ ∃ it ∈ l, it.text = hd ∧ matchContactHeader hd = true := by
  induction fuel with
  | zero => intro l i h e hd hh; exact Or.inl hh
  | succ n ih =>
      intro l i h e hd hh
      rw [scanLoop] at hh
      cases hg : l.get? i with
      | none => simp only [hg] at hh; exact Or.inl hh
      | some item =>
          simp only [hg] at hh
          cases hm : matchContactHeader item.text
          · simp only [hm, Bool.false_eq_true, if_false] at hh
            cases hs : searchEmail item.text with
            | none =>
                simp only [hs] at hh
                exact ih l (i + 1) h e hd hh
            | some m =>
                simp only [hs] at hh
                rcases ih (l.erase item) (i + 1) h (some m) hd hh with h1 | ⟨it, h2, h3, h4⟩
                · exact Or.inl h1
                · exact Or.inr ⟨it, List.erase_subset _ _ h2, h3, h4⟩
          · simp only [hm, if_true] at hh
            rcases ih (l.erase item) (i + 1) (some item.text) e hd hh with h1 | ⟨it, h2, h3, h4⟩
            · refine Or.inr ⟨item, List.get?_mem hg, ?_, ?_⟩
              · injection h1
              · injection h1 with h1'; rw [← h1']; exact hm
            · exact Or.inr ⟨it, List.erase_subset _ _ h2, h3, h4⟩

/-- An email recorded by the scan is the email match of some input
fragment. -/
theorem scanLoop_email_src (fuel : Nat) :
    ∀ (l : List Item) (i : Nat) (h e : Option String) (m : String),
      (scanLoop fuel l i h e).2.2 = some m →
      e = some m ∨ ∃ it ∈ l, searchEmail it.text = some m := by
  induction fuel with
  | zero => intro l i h e m hh; exact Or.inl hh
  | succ n ih =>
      intro l i h e m hh
      rw [scanLoop] at hh
      cases hg : l.get? i with
      | none => simp only [hg] at hh; exact Or.inl hh
      | some item =>
          simp only [hg] at hh
          cases hm : matchContactHeader item.text
          · simp only [hm, Bool.false_eq_true, if_false] at hh
            cases hs : searchEmail item.text with
            | none =>
                simp only [hs] at hh
                exact ih l (i + 1) h e m hh
            | some m' =>
                simp only [hs] at hh
                rcases ih (l.erase item) (i + 1) h (some m') m hh with h1 | ⟨it, h2, h3⟩
                · refine Or.inr ⟨item, List.get?_mem hg, ?_⟩
                  rw [hs]; injection h1 with h1'; rw [h1']
                · exact Or.inr ⟨it, List.erase_subset _ _ h2, h3⟩
          · simp only [hm, if_true] at hh
            rcases ih (l.erase item) (i + 1) (some item.text) e m hh with h1 | ⟨it, h2, h3⟩
            · exact Or.inl h1
            · exact Or.inr ⟨it, List.erase_subset _ _ h2, h3⟩

theorem contactFinish_fst (r : List Item × Option String × Option String) :
    (contactFinish r).1 = r.1 := by
  rcases r with ⟨c', h, e⟩
  cases h with
  | none => rfl
  | some hd =>
      rw [contactFinish]
      cases hsd : splitDashes hd with
      | nil => rfl
      | cons p0 t =>
          cases t with
          | nil => rfl
          | cons p1 t2 => rfl

theorem extract_fst (content : List Item) :
    (_extract_contact_information content).1
      = (scanLoop content.length content 0 none none).1 :=
  contactFinish_fst (scanLoop content.length content 0 none none)

/-! ## Claim C1 -/

/-- C1 (amended): the fragment stream returned by the Contact Extractor is
always a subsequence of its input, so all surviving fragments retain their
relative order.  (The removal half of the original claim is false: the
mutate-while-scan loop skips the fragment that follows a removed one — see
the counterexample.) -/
theorem claim_C1_order_preserved (content : List Item) :
    ((_extract_contact_information content).1).Sublist content := by
  rw [extract_fst]
  exact scanLoop_sublist content.length content 0 none none

/-- C1 counterexample: an email-bearing fragment placed directly after the
header fragment is skipped by the mutating scan, survives extraction, and
its text ends up inside the Executive Summary section's content — refuting
"the email-bearing fragment … never appears in any section's content". -/
theorem claim_C1_cx :
    matchContactHeader "A. Smith - “Senior Consultant”" = true
    ∧ searchEmail "Contact: john@x.com" = some "john@x.com"
    ∧ parseFromSpans ["A. Smith - “Senior Consultant”", "Executive Summary",
        "Contact: john@x.com", "more text"]
      = .ok ⟨none,
          [⟨"Name", .str "A. Smith"⟩, ⟨"Job Title", .str "Senior Consultant"⟩,
           ⟨"Executive Summary",
            .arr [.str "Contact: john@x.com", .str "more text"]⟩]⟩ :=
  ⟨rfl, rfl, rfl⟩

/-! ## Claim C3 -/

/-- C3 (code bug): on a stream with no header-matching fragment the code
does not return a null-field `ContactInfo`; it evaluates
`re.sub(r"[\"“”]", "", None)` and raises `TypeError`, which propagates out
of `_parse_profile`. -/
theorem claim_C3_no_header_raises :
    (_extract_contact_information [⟨none, "hello world"⟩]).2
      = .error "TypeError: expected string or bytes-like object"
    ∧ matchContactHeader "hello world" = false
    ∧ parseFromSpans ["hello world"]
      = .error "TypeError: expected string or bytes-like object" :=
  ⟨rfl, rfl, rfl⟩

/-! ## Claim C8 -/

/-- C8 (code bug): a header line with fewer than three parseable fields
makes `_experienceHeaderHelper` raise `IndexError` instead of filling the
missing fields with nulls.  The second conjunct records that such a line
cannot match the segmenter's header pattern (the pattern forces two
separators), so the claim's guard is unsatisfiable and the bug is only
reachable by calling the helper directly. -/
theorem claim_C8_short_header_raises :
    _experienceHeaderHelper "Alpha - Lead"
      = .error "IndexError: list index out of range"
    ∧ matchExpHeader "Alpha - Lead" = false :=
  ⟨rfl, rfl⟩

/-! ## Claim C5, counterexample -/

/-- C5 counterexample: with two email-bearing fragments (separated so that
the skip-on-delete effect does not hide the second), the extractor returns
the match of the *second* fragment, not the first. -/
theorem claim_C5_cx :
    (_extract_contact_information
        [⟨none, "A. Smith - “Boss”"⟩, ⟨none, "junk"⟩, ⟨none, "e1@a.com hi"⟩,
         ⟨none, "junk2"⟩, ⟨none, "x b@c.de y"⟩]).2
      = .ok ⟨some "A. Smith", some "b@c.de", some "Boss"⟩
    ∧ searchEmail "e1@a.com hi" = some "e1@a.com"
    ∧ ("b@c.de" : String) ≠ "e1@a.com" :=
  ⟨rfl, rfl, by decide⟩

/-! ## Claim C5, amended theorem -/

/-- C5 (amended): later email matches are not ignored — they overwrite the
earlier ones.  For any two email-bearing fragments placed so that the
mutating scan visits both, the extractor completes with the match of the
second (last-visited) fragment. -/
theorem claim_C5_email_overwrite
    (t1 t2 m1 m2 : String) (s3 s5 : Option String)
    (h1m : matchContactHeader t1 = false) (h1e : searchEmail t1 = some m1)
    (h2m : matchContactHeader t2 = false) (h2e : searchEmail t2 = some m2)
    (hm2 : m2 ≠ "") :
    (_extract_contact_information
        [⟨none, "A. Smith - “Boss”"⟩, ⟨none, "zz"⟩, ⟨s3, t1⟩,
         ⟨none, "zz zz"⟩, ⟨s5, t2⟩]).2
      = .ok ⟨some "A. Smith", some m2, some "Boss"⟩ := by
  have hne1 : ((⟨none, "zz"⟩ : Item) == ⟨s3, t1⟩) = false := by
    rw [beq_eq_false_iff_ne]
    intro hcontra
    have ht : "zz" = t1 := congrArg Item.text hcontra
    rw [← ht, show searchEmail "zz" = none from rfl] at h1e
    cases h1e
  have hne2 : ((⟨none, "zz"⟩ : Item) == ⟨s5, t2⟩) = false := by
    rw [beq_eq_false_iff_ne]
    intro hcontra
    have ht : "zz" = t2 := congrArg Item.text hcontra
    rw [← ht, show searchEmail "zz" = none from rfl] at h2e
    cases h2e
  have hne3 : ((⟨none, "zz zz"⟩ : Item) == ⟨s5, t2⟩) = false := by
    rw [beq_eq_false_iff_ne]
    intro hcontra
    have ht : "zz zz" = t2 := congrArg Item.text hcontra
    rw [← ht, show searchEmail "zz zz" = none from rfl] at h2e
    cases h2e
  have herase1 : [(⟨none, "zz"⟩ : Item), ⟨s3, t1⟩, ⟨none, "zz zz"⟩, ⟨s5, t2⟩].erase ⟨s3, t1⟩
      = [⟨none, "zz"⟩, ⟨none, "zz zz"⟩, ⟨s5, t2⟩] := by
    rw [List.erase_cons_tail (by rw [hne1]; decide), List.erase_cons_head]
  have herase2 : [(⟨none, "zz"⟩ : Item), ⟨none, "zz zz"⟩, ⟨s5, t2⟩].erase ⟨s5, t2⟩
      = [⟨none, "zz"⟩, ⟨none, "zz zz"⟩] := by
    rw [List.erase_cons_tail (by rw [hne2]; decide),
        List.erase_cons_tail (by rw [hne3]; decide), List.erase_cons_head]
  have step1 : scanLoop 5
        [(⟨none, "A. Smith - “Boss”"⟩ : Item), ⟨none, "zz"⟩, ⟨s3, t1⟩,
         ⟨none, "zz zz"⟩, ⟨s5, t2⟩] 0 none none
      = scanLoop 4 [⟨none, "zz"⟩, ⟨s3, t1⟩, ⟨none, "zz zz"⟩, ⟨s5, t2⟩] 1
          (some "A. Smith - “Boss”") none := rfl
  have step2 : scanLoop 4
        [(⟨none, "zz"⟩ : Item), ⟨s3, t1⟩, ⟨none, "zz zz"⟩, ⟨s5, t2⟩] 1
          (some "A. Smith - “Boss”") none
      = scanLoop 3 [⟨none, "zz"⟩, ⟨none, "zz zz"⟩, ⟨s5, t2⟩] 2
          (some "A. Smith - “Boss”") (some m1) := by
    show scanLoop (3 + 1) _ _ _ _ = _
    rw [scanLoop]
    simp only [show List.get?
        [(⟨none, "zz"⟩ : Item), ⟨s3, t1⟩, ⟨none, "zz zz"⟩, ⟨s5, t2⟩] 1
        = some ⟨s3, t1⟩ from rfl, h1m, h1e, Bool.false_eq_true, if_false, herase1]
  have step3 : scanLoop 3
        [(⟨none, "zz"⟩ : Item), ⟨none, "zz zz"⟩, ⟨s5, t2⟩] 2
          (some "A. Smith - “Boss”") (some m1)
      = scanLoop 2 [⟨none, "zz"⟩, ⟨none, "zz zz"⟩] 3
          (some "A. Smith - “Boss”") (some m2) := by
    show scanLoop (2 + 1) _ _ _ _ = _
    rw [scanLoop]
    simp only [show List.get?
        [(⟨none, "zz"⟩ : Item), ⟨none, "zz zz"⟩, ⟨s5, t2⟩] 2
        = some ⟨s5, t2⟩ from rfl, h2m, h2e, Bool.false_eq_true, if_false, herase2]
  have step4 : scanLoop 2 [(⟨none, "zz"⟩ : Item), ⟨none, "zz zz"⟩] 3
          (some "A. Smith - “Boss”") (some m2)
      = ([⟨none, "zz"⟩, ⟨none, "zz zz"⟩], some "A. Smith - “Boss”", some m2) := rfl
  show (_extract_contact_information _).2 = _
  unfold _extract_contact_information
  rw [show (List.length
      [(⟨none, "A. Smith - “Boss”"⟩ : Item), ⟨none, "zz"⟩, ⟨s3, t1⟩,
       ⟨none, "zz zz"⟩, ⟨s5, t2⟩]) = 5 from rfl]
  rw [step1, step2, step3, step4, contactFinish]
  simp only [show splitDashes "A. Smith - “Boss”" = ["A. Smith", "“Boss”"] from rfl,
    show stripQuotes "“Boss”" = "Boss" from rfl]
  rw [if_neg (show ¬(some m2 = some "") from fun hcontra => hm2 (Option.some.inj hcontra))]
  rw [if_neg (show ¬("Boss" : String) = "" by decide)]

/-- C5 witness: the amended theorem applied to two concrete email
fragments — the second match `b@c.de` wins over the first `e1@a.com`. -/
theorem claim_C5_witness :
    searchEmail "e1@a.com hi" = some "e1@a.com"
    ∧ (_extract_contact_information
        [⟨none, "A. Smith - “Boss”"⟩, ⟨none, "zz"⟩, ⟨none, "e1@a.com hi"⟩,
         ⟨none, "zz zz"⟩, ⟨none, "x b@c.de y"⟩]).2
      = .ok ⟨some "A. Smith", some "b@c.de", some "Boss"⟩ :=
  ⟨rfl, claim_C5_email_overwrite "e1@a.com hi" "x b@c.de y" "e1@a.com" "b@c.de"
    none none rfl rfl rfl rfl (by decide)⟩

/-! ## Claim C2: experience pairing -/

/-- A well-formed experience block: a header line with its parsed header
record and the detail lines that follow it (before the next header). -/
structure ExpPair where
  line : String
  hdr : ExpHeader
  ds : List String
deriving DecidableEq, Repr

/-- The Experience line list described by a list of blocks. -/
def interleaveExp : List ExpPair → List String
  | [] => []
  | p :: rest => p.line :: (p.ds ++ interleaveExp rest)

/-- Hypotheses under which a block list describes its line list: headers
match the pattern and parse, and every block has at least one detail line,
none of which looks like a header. -/
def GoodPairs (pairs : List ExpPair) : Prop :=
  ∀ p ∈ pairs, matchExpHeader p.line = true
    ∧ _experienceHeaderHelper p.line = .ok p.hdr
    ∧ p.ds ≠ []
    ∧ ∀ d ∈ p.ds, matchExpHeader d = false

/-- The buffer a header flushes (nothing if the buffer is falsy). -/
def flushOpt (c : Option (List String)) : List (Option (List String)) :=
  if bufTruthy c then [c] else []

theorem expGo_details_run (ds' : List String) :
    ∀ (buf : List String) (rest' : List String) (info : List ExpHeader)
      (details : List (Option (List String))),
      (∀ d ∈ ds', matchExpHeader d = false) → buf ≠ [] →
      expGo (ds' ++ rest') (some buf) info details
        = expGo rest' (some (buf ++ ds')) info details := by
  induction ds' with
  | nil => intro buf rest' info details _ _; simp
  | cons d dtail ih =>
      intro buf rest' info details hnm hbuf
      have hd : matchExpHeader d = false := hnm d (List.mem_cons_self d dtail)
      have hbt : bufTruthy (some buf) = true := by
        cases buf with
        | nil => exact absurd rfl hbuf
        | cons a t => rfl
      rw [List.cons_append, expGo, hd]
      simp only [Bool.false_eq_true, if_false, hbt, if_true, Option.getD_some]
      rw [ih (buf ++ [d]) rest' info details
        (fun x hx => hnm x (List.mem_cons_of_mem d hx)) (by simp)]
      rw [List.append_assoc]
      rfl

/-- Processing one block's detail lines from a falsy-buffer state: they
end up as the open buffer, ready for the next header to flush. -/
theorem expGo_pair_step (d0 : String) (dtail : List String) :
    ∀ (c : Option (List String)) (rest' : List String)
      (info : List ExpHeader) (details : List (Option (List String))),
      bufTruthy c = false →
      (∀ d ∈ d0 :: dtail, matchExpHeader d = false) →
      expGo ((d0 :: dtail) ++ rest') c info details
        = expGo rest' (some (d0 :: dtail)) info details := by
  intro c rest' info details hc hnm
  have hd0 : matchExpHeader d0 = false := hnm d0 (List.mem_cons_self d0 dtail)
  rw [List.cons_append, expGo, hd0]
  simp only [Bool.false_eq_true, if_false, hc]
  rw [expGo_details_run dtail [d0] rest' info details
    (fun x hx => hnm x (List.mem_cons_of_mem d0 hx)) (by simp)]
  rfl

theorem expGo_interleave (pairs : List ExpPair) :
    GoodPairs pairs →
    ∀ (c : Option (List String)) (info : List ExpHeader)
      (details : List (Option (List String))),
      expGo (interleaveExp pairs) c info details
        = .ok (List.zipWith (fun h d => ProjRec.mk h d)
            (info ++ pairs.map ExpPair.hdr)
            (if pairs.isEmpty then details ++ [c]
             else details ++ flushOpt c ++ pairs.map (fun p => some p.ds))) := by
  induction pairs with
  | nil =>
      intro _ c info details
      simp [interleaveExp, expGo, List.isEmpty]
  | cons p rest ih =>
      intro hg c info details
      rcases hg p (List.mem_cons_self p rest) with ⟨hmatch, hhelper, hds, hnm⟩
      have hrest : GoodPairs rest := fun q hq => hg q (List.mem_cons_of_mem p hq)
      rcases hdsne : p.ds with _ | ⟨d0, dtail⟩
      · exact absurd hdsne hds
      · have hmain :
            expGo (interleaveExp (p :: rest)) c info details
              = expGo (interleaveExp rest) (some p.ds) (info ++ [p.hdr])
                  (details ++ flushOpt c) := by
          rw [interleaveExp, expGo, hmatch]
          simp only [if_true, hhelper]
          cases hbt : bufTruthy c
          · simp only [Bool.false_eq_true, if_false, flushOpt, hbt, List.append_nil]
            rw [hdsne]
            exact expGo_pair_step d0 dtail c (interleaveExp rest) (info ++ [p.hdr])
              details hbt (hdsne ▸ hnm)
          · simp only [if_true, flushOpt, hbt]
            rw [hdsne]
            exact expGo_pair_step d0 dtail (some []) (interleaveExp rest)
              (info ++ [p.hdr]) (details ++ [c]) rfl (hdsne ▸ hnm)
        rw [hmain, ih hrest (some p.ds) (info ++ [p.hdr]) (details ++ flushOpt c)]
        have hfl : flushOpt (some p.ds) = [some p.ds] := by
          rw [hdsne]; rfl
        cases rest with
        | nil => simp [List.isEmpty]
        | cons q rest' => simp [List.isEmpty, hfl]

/-- C2 (amended): whenever the Experience lines decompose into blocks —
no detail line before the first header, every header followed by at least
one detail line — the Nth header's record receives exactly the detail
lines strictly between the Nth and (N+1)th headers, in header order.
(Without those provisos pairing shifts: see the counterexample.) -/
theorem claim_C2_pairing (pairs : List ExpPair) (hg : GoodPairs pairs) :
    _experience_section_helper (interleaveExp pairs)
      = .ok (pairs.map fun p => ProjRec.mk p.hdr (some p.ds)) := by
  rw [_experience_section_helper, expGo_interleave pairs hg none [] []]
  cases pairs with
  | nil => rfl
  | cons p rest =>
      simp only [List.isEmpty, flushOpt, bufTruthy, Bool.false_eq_true, if_false,
        List.nil_append]
      rw [List.zipWith_map (fun h d => ProjRec.mk h d) ExpPair.hdr
        (fun p => some p.ds) (p :: rest) (p :: rest)]
      rw [List.zipWith_same]

/-- C2 counterexample: a detail line before the first header is not
"attached to no header" — it becomes the first header's details, and the
details that should belong to the first header are lost. -/
theorem claim_C2_cx :
    _experience_section_helper ["intro", "Alpha - Lead - Finance", "did X"]
      = .ok [⟨⟨some "Alpha", some "Lead", some "Finance"⟩, some ["intro"]⟩]
    ∧ (["intro"] : List String) ≠ ["did X"] :=
  ⟨rfl, by decide⟩

/-- C2 witness: the amended theorem applied to the specification's own
example yields exactly the pairing the spec demands. -/
theorem claim_C2_witness :
    _experience_section_helper
        ["Alpha - Lead - Finance", "did X", "Beta - Analyst - Retail", "did Y"]
      = .ok [⟨⟨some "Alpha", some "Lead", some "Finance"⟩, some ["did X"]⟩,
             ⟨⟨some "Beta", some "Analyst", some "Retail"⟩, some ["did Y"]⟩] :=
  claim_C2_pairing
    [⟨"Alpha - Lead - Finance", ⟨some "Alpha", some "Lead", some "Finance"⟩, ["did X"]⟩,
     ⟨"Beta - Analyst - Retail", ⟨some "Beta", some "Analyst", some "Retail"⟩, ["did Y"]⟩]
    (by
      intro p hp
      rcases hp with _ | ⟨_, hp⟩
      · exact ⟨rfl, rfl, by decide, by decide⟩
      · rcases hp with _ | ⟨_, hp⟩
        · exact ⟨rfl, rfl, by decide, by decide⟩
        · cases hp)

/-! ## Claim C4: shape of serialized experience records -/

theorem mem_zipWith' {α β γ : Type} {f : α → β → γ} :
    ∀ {as : List α} {bs : List β} {r : γ},
      r ∈ List.zipWith f as bs → ∃ a ∈ as, ∃ b ∈ bs, r = f a b := by
  intro as
  induction as with
  | nil => intro bs r hr; cases hr
  | cons a as' ih =>
      intro bs r hr
      cases bs with
      | nil => cases hr
      | cons b bs' =>
          rw [List.zipWith_cons_cons] at hr
          rcases hr with _ | ⟨_, hr⟩
          · exact ⟨a, List.mem_cons_self a as', b, List.mem_cons_self b bs', rfl⟩
          · rcases ih hr with ⟨a', ha', b', hb', heq⟩
            exact ⟨a', List.mem_cons_of_mem a ha', b', List.mem_cons_of_mem b hb', heq⟩

theorem all_str_map (ds : List String) :
    ((List.map Json.str ds).all fun x =>
      match x with | Json.str _ => true | _ => false) = true := by
  induction ds with
  | nil => rfl
  | cons a t ih => simp [ih]

theorem projToJson_nested (r : ProjRec) :
    isNestedProjectJson (projToJson r) = true := by
  rcases r with ⟨⟨t, p, i⟩, d⟩
  have ht : (match optStrJson t with
      | Json.null => true | Json.str _ => true | _ => false) = true := by
    cases t <;> rfl
  have hp : (match optStrJson p with
      | Json.null => true | Json.str _ => true | _ => false) = true := by
    cases p <;> rfl
  have hi : (match optStrJson i with
      | Json.null => true | Json.str _ => true | _ => false) = true := by
    cases i <;> rfl
  cases d with
  | none => simp [projToJson, isNestedProjectJson, ht, hp, hi]
  | some ds =>
      simp [projToJson, isNestedProjectJson, ht, hp, hi, all_str_map]

theorem expGo_provenance (lines : List String) :
    ∀ (c : Option (List String)) (info : List ExpHeader)
      (details : List (Option (List String))) (res : List ProjRec),
      expGo lines c info details = .ok res →
      ∀ r ∈ res,
        (r.project_header ∈ info
          ∨ ∃ line ∈ lines, matchExpHeader line = true
              ∧ _experienceHeaderHelper line = .ok r.project_header)
        ∧ ∀ ds, r.project_details = some ds → ∀ d ∈ ds,
            (∃ d0 ∈ details, ∃ ds0, d0 = some ds0 ∧ d ∈ ds0)
            ∨ (∃ c0, c = some c0 ∧ d ∈ c0)
            ∨ (d ∈ lines ∧ matchExpHeader d = false) := by
  induction lines with
  | nil =>
      intro c info details res hok r hr
      rw [expGo] at hok
      injection hok with hok
      rw [← hok] at hr
      rcases mem_zipWith' hr with ⟨h, hh, d', hd', heqr⟩
      constructor
      · exact Or.inl (by rw [heqr]; exact hh)
      · intro ds hds d hd
        rw [heqr] at hds
        rcases List.mem_append.mp hd' with hmem | hmem
        · exact Or.inl ⟨d', hmem, ds, hds, hd⟩
        · have : d' = c := by
            rcases hmem with _ | ⟨_, hmem⟩
            · rfl
            · cases hmem
          exact Or.inr (Or.inl ⟨ds, by rw [← this]; exact hds, hd⟩)
  | cons line rest ih =>
      intro c info details res hok r hr
      rw [expGo] at hok
      cases hm : matchExpHeader line
      · rw [hm] at hok
        simp only [Bool.false_eq_true, if_false] at hok
        cases hbt : bufTruthy c
        · rw [hbt] at hok
          simp only [Bool.false_eq_true, if_false] at hok
          rcases ih (some [line]) info details res hok r hr with ⟨hhd, hdet⟩
          constructor
          · rcases hhd with hin | ⟨l, hl, hlm, hlh⟩
            · exact Or.inl hin
            · exact Or.inr ⟨l, List.mem_cons_of_mem line hl, hlm, hlh⟩
          · intro ds hds d hd
            rcases hdet ds hds d hd with h1 | ⟨c0, hc0, hdc0⟩ | ⟨h3a, h3b⟩
            · exact Or.inl h1
            · injection hc0 with hc0'
              rw [← hc0'] at hdc0
              have : d = line := by
                rcases hdc0 with _ | ⟨_, hx⟩
                · rfl
                · cases hx
              exact Or.inr (Or.inr ⟨this ▸ List.mem_cons_self line rest, this ▸ hm⟩)
            · exact Or.inr (Or.inr ⟨List.mem_cons_of_mem line h3a, h3b⟩)
        · rw [hbt] at hok
          simp only [if_true] at hok
          rcases ih (some (c.getD [] ++ [line])) info details res hok r hr with ⟨hhd, hdet⟩
          constructor
          · rcases hhd with hin | ⟨l, hl, hlm, hlh⟩
            · exact Or.inl hin
            · exact Or.inr ⟨l, List.mem_cons_of_mem line hl, hlm, hlh⟩
          · intro ds hds d hd
            rcases hdet ds hds d hd with h1 | ⟨c0, hc0, hdc0⟩ | ⟨h3a, h3b⟩
            · exact Or.inl h1
            · injection hc0 with hc0'
              rw [← hc0'] at hdc0
              rcases List.mem_append.mp hdc0 with hmem | hmem
              · rcases hcb : c with _ | cb
                · rw [hcb] at hbt; cases hbt
                · rw [hcb] at hmem
                  exact Or.inr (Or.inl ⟨cb, rfl, by simpa using hmem⟩)
              · have : d = line := by
                  rcases hmem with _ | ⟨_, hx⟩
                  · rfl
                  · cases hx
                exact Or.inr (Or.inr ⟨this ▸ List.mem_cons_self line rest, this ▸ hm⟩)
            · exact Or.inr (Or.inr ⟨List.mem_cons_of_mem line h3a, h3b⟩)
      · rw [hm] at hok
        simp only [if_true] at hok
        cases hh : _experienceHeaderHelper line with
        | error e => rw [hh] at hok; cases hok
        | ok h =>
            rw [hh] at hok
            cases hbt : bufTruthy c
            · rw [hbt] at hok
              simp only [Bool.false_eq_true, if_false] at hok
              rcases ih c (info ++ [h]) details res hok r hr with ⟨hhd, hdet⟩
              constructor
              · rcases hhd with hin | ⟨l, hl, hlm, hlh⟩
                · rcases List.mem_append.mp hin with hi1 | hi2
                  · exact Or.inl hi1
                  · have : r.project_header = h := by
                      rcases hi2 with _ | ⟨_, hx⟩
                      · rfl
                      · cases hx
                    exact Or.inr ⟨line, List.mem_cons_self line rest, hm, this ▸ hh⟩
                · exact Or.inr ⟨l, List.mem_cons_of_mem line hl, hlm, hlh⟩
              · intro ds hds d hd
                rcases hdet ds hds d hd with h1 | h2 | ⟨h3a, h3b⟩
                · exact Or.inl h1
                · exact Or.inr (Or.inl h2)
                · exact Or.inr (Or.inr ⟨List.mem_cons_of_mem line h3a, h3b⟩)
            · rw [hbt] at hok
              simp only [if_true] at hok
              rcases ih (some []) (info ++ [h]) (details ++ [c]) res hok r hr with ⟨hhd, hdet⟩
              constructor
              · rcases hhd with hin | ⟨l, hl, hlm, hlh⟩
                · rcases List.mem_append.mp hin with hi1 | hi2
                  · exact Or.inl hi1
                  · have : r.project_header = h := by
                      rcases hi2 with _ | ⟨_, hx⟩
                      · rfl
                      · cases hx
                    exact Or.inr ⟨line, List.mem_cons_self line rest, hm, this ▸ hh⟩
                · exact Or.inr ⟨l, List.mem_cons_of_mem line hl, hlm, hlh⟩
              · intro ds hds d hd
                rcases hdet ds hds d hd with h1 | ⟨c0, hc0, hdc0⟩ | ⟨h3a, h3b⟩
                · rcases h1 with ⟨d0, hd0, ds0, hds0, hdds0⟩
                  rcases List.mem_append.mp hd0 with hmem | hmem
                  · exact Or.inl ⟨d0, hmem, ds0, hds0, hdds0⟩
                  · have : d0 = c := by
                      rcases hmem with _ | ⟨_, hx⟩
                      · rfl
                      · cases hx
                    exact Or.inr (Or.inl ⟨ds0, by rw [← this, hds0], hdds0⟩)
                · injection hc0 with hc0'
                  rw [← hc0'] at hdc0
                  cases hdc0
                · exact Or.inr (Or.inr ⟨List.mem_cons_of_mem line h3a, h3b⟩)

/-- C4 (amended): every record the Experience Segmenter produces
serializes as a *nested* object — a `project_header` sub-object holding
the three optional string fields beside a `project_details` list (null
when no detail line followed the last header) — not as the flat
four-field record the specification describes; each header sub-object is
parsed from a header-matching input line and all detail lines come from
non-header input lines. -/
theorem claim_C4_record_shape (lines : List String) (res : List ProjRec)
    (hok : _experience_section_helper lines = .ok res) :
    ∀ r ∈ res, isNestedProjectJson (projToJson r) = true
      ∧ (∃ line ∈ lines, matchExpHeader line = true
          ∧ _experienceHeaderHelper line = .ok r.project_header)
      ∧ (∀ ds, r.project_details = some ds → ∀ d ∈ ds,
          d ∈ lines ∧ matchExpHeader d = false) := by
  intro r hr
  rw [_experience_section_helper] at hok
  rcases expGo_provenance lines none [] [] res hok r hr with ⟨hhd, hdet⟩
  refine ⟨projToJson_nested r, ?_, ?_⟩
  · rcases hhd with hin | hsrc
    · cases hin
    · exact hsrc
  · intro ds hds d hd
    rcases hdet ds hds d hd with ⟨d0, hd0, _⟩ | ⟨c0, hc0, _⟩ | h3
    · cases hd0
    · cases hc0
    · exact h3

/-- C4 counterexample: the serialized record for `Alpha - Lead - Finance`
is not an object with top-level fields `project_title`, …,
`project_details`; it nests the three header fields under
`project_header`. -/
theorem claim_C4_cx :
    _experience_section_helper ["Alpha - Lead - Finance", "did X"]
      = .ok [⟨⟨some "Alpha", some "Lead", some "Finance"⟩, some ["did X"]⟩]
    ∧ isFlatProjectJson
        (projToJson ⟨⟨some "Alpha", some "Lead", some "Finance"⟩, some ["did X"]⟩)
      = false
    ∧ projToJson ⟨⟨some "Alpha", some "Lead", some "Finance"⟩, some ["did X"]⟩
      = .obj [("project_header",
               .obj [("project_title", .str "Alpha"),
                     ("project_position", .str "Lead"),
                     ("project_industry", .str "Finance")]),
              ("project_details", .arr [.str "did X"])] :=
  ⟨rfl, rfl, rfl⟩

/-- C4 witness: the amended claim at the two-line input. -/
theorem claim_C4_witness :
    isNestedProjectJson
        (projToJson ⟨⟨some "Alpha", some "Lead", some "Finance"⟩, some ["did X"]⟩)
      = true
    ∧ (∃ line ∈ ["Alpha - Lead - Finance", "did X"], matchExpHeader line = true
        ∧ _experienceHeaderHelper line
            = .ok (⟨some "Alpha", some "Lead", some "Finance"⟩ : ExpHeader))
    ∧ (∀ ds, (some ["did X"] : Option (List String)) = some ds → ∀ d ∈ ds,
        d ∈ ["Alpha - Lead - Finance", "did X"] ∧ matchExpHeader d = false) :=
  claim_C4_record_shape ["Alpha - Lead - Finance", "did X"]
    [⟨⟨some "Alpha", some "Lead", some "Finance"⟩, some ["did X"]⟩] rfl
    ⟨⟨some "Alpha", some "Lead", some "Finance"⟩, some ["did X"]⟩
    (List.mem_cons_self _ _)

/-! ## Claims C6 and C10: assembler output shapes -/

theorem filter_names_self (l : List SectionEntry) (s : String)
    (h : ∀ e ∈ l, e.section_name = s) :
    l.filter (fun e => e.section_name == s) = l := by
  induction l with
  | nil => rfl
  | cons a t ih =>
      have ha : a.section_name = s := h a (List.mem_cons_self a t)
      rw [List.filter_cons]
      simp only [ha, beq_self_eq_true, if_true]
      rw [ih (fun e he => h e (List.mem_cons_of_mem a he))]

theorem filter_names_ne (l : List SectionEntry) (s s' : String)
    (h : ∀ e ∈ l, e.section_name = s) (hne : s ≠ s') :
    l.filter (fun e => e.section_name == s') = [] := by
  induction l with
  | nil => rfl
  | cons a t ih =>
      have ha : a.section_name = s := h a (List.mem_cons_self a t)
      rw [List.filter_cons]
      have : (a.section_name == s') = false := by
        rw [beq_eq_false_iff_ne, ha]; exact hne
      simp only [this, Bool.false_eq_true, if_false]
      exact ih (fun e he => h e (List.mem_cons_of_mem a he))

theorem contactEntries_names (s : String) (v : Option String) :
    ∀ e ∈ contactEntries s v, e.section_name = s := by
  intro e he
  cases v with
  | none => cases he
  | some t =>
      rw [contactEntries] at he
      by_cases ht : t = ""
      · rw [if_pos ht] at he; cases he
      · rw [if_neg ht] at he
        rcases he with _ | ⟨_, hx⟩
        · rfl
        · cases hx

theorem longformEntries_names (s : String) (vals : List String) :
    ∀ e ∈ longformEntries s vals, e.section_name = s := by
  intro e he
  cases vals with
  | nil => cases he
  | cons a t =>
      rcases he with _ | ⟨_, hx⟩
      · rfl
      · cases hx

theorem bulletEntries_names (s : String) (vals : List String) :
    ∀ e ∈ bulletEntries s vals, e.section_name = s := by
  intro e he
  rw [bulletEntries] at he
  rcases List.mem_map.mp he with ⟨v, _, hv⟩
  rw [← hv]

theorem expEntries_names (projects : List ProjRec) :
    ∀ e ∈ expEntries projects, e.section_name = "Experience" := by
  intro e he
  rcases List.mem_map.mp he with ⟨r, _, hv⟩
  rw [← hv]

theorem filter_contactEntries (s s' : String) (v : Option String) :
    (contactEntries s v).filter (fun e => e.section_name == s')
      = if s = s' then contactEntries s v else [] := by
  by_cases hss : s = s'
  · rw [if_pos hss, ← hss]
    exact filter_names_self _ s (contactEntries_names s v)
  · rw [if_neg hss]
    exact filter_names_ne _ s s' (contactEntries_names s v) hss

theorem filter_longformEntries (s s' : String) (vals : List String) :
    (longformEntries s vals).filter (fun e => e.section_name == s')
      = if s = s' then longformEntries s vals else [] := by
  by_cases hss : s = s'
  · rw [if_pos hss, ← hss]
    exact filter_names_self _ s (longformEntries_names s vals)
  · rw [if_neg hss]
    exact filter_names_ne _ s s' (longformEntries_names s vals) hss

theorem filter_bulletEntries (s s' : String) (vals : List String) :
    (bulletEntries s vals).filter (fun e => e.section_name == s')
      = if s = s' then bulletEntries s vals else [] := by
  by_cases hss : s = s'
  · rw [if_pos hss, ← hss]
    exact filter_names_self _ s (bulletEntries_names s vals)
  · rw [if_neg hss]
    exact filter_names_ne _ s s' (bulletEntries_names s vals) hss

theorem filter_expEntries (s' : String) (projects : List ProjRec) :
    (expEntries projects).filter (fun e => e.section_name == s')
      = if "Experience" = s' then expEntries projects else [] := by
  by_cases hss : "Experience" = s'
  · rw [if_pos hss, ← hss]
    exact filter_names_self _ _ (expEntries_names projects)
  · rw [if_neg hss]
    exact filter_names_ne _ _ s' (expEntries_names projects) hss

theorem longformEntries_eq_if (s : String) (vals : List String) :
    longformEntries s vals
      = if vals = [] then [] else [⟨s, Json.arr (vals.map Json.str)⟩] := by
  cases vals with
  | nil => rfl
  | cons a t => simp [longformEntries]

/-- C6 (amended): for every assembled document, a bullet-style section
with N retained values yields N separate entries sharing that name, one
value each, in original order; Executive Summary and Mobility yield one
entry holding the full ordered value list; Experience yields one entry
per project record; but Name, Email and Job Title each yield (when their
extracted value is truthy) a single entry whose content is the *bare
string*, not a one-element list. -/
theorem claim_C6_assembler_shapes (contact : ContactInfo)
    (smap : String → List String) (projects : List ProjRec) :
    ((assemble contact smap projects).filter (fun e => e.section_name == "Name")
      = (match contact.name with
         | none => []
         | some t => if t = "" then [] else [⟨"Name", Json.str t⟩]))
    ∧ ((assemble contact smap projects).filter (fun e => e.section_name == "Email")
      = (match contact.email with
         | none => []
         | some t => if t = "" then [] else [⟨"Email", Json.str t⟩]))
    ∧ ((assemble contact smap projects).filter (fun e => e.section_name == "Job Title")
      = (match contact.job_title with
         | none => []
         | some t => if t = "" then [] else [⟨"Job Title", Json.str t⟩]))
    ∧ ((assemble contact smap projects).filter
          (fun e => e.section_name == "Executive Summary")
      = if smap "Executive Summary" = [] then []
        else [⟨"Executive Summary",
               Json.arr ((smap "Executive Summary").map Json.str)⟩])
    ∧ ((assemble contact smap projects).filter (fun e => e.section_name == "Mobility")
      = if smap "Mobility" = [] then []
        else [⟨"Mobility", Json.arr ((smap "Mobility").map Json.str)⟩])
    ∧ ((assemble contact smap projects).filter
          (fun e => e.section_name == "Technical Expertise")
      = ((smap "Technical Expertise").filter (· ≠ "")).map
          (fun v => ⟨"Technical Expertise", Json.str v⟩))
    ∧ ((assemble contact smap projects).filter
          (fun e => e.section_name == "Functional Expertise")
      = ((smap "Functional Expertise").filter (· ≠ "")).map
          (fun v => ⟨"Functional Expertise", Json.str v⟩))
    ∧ ((assemble contact smap projects).filter
          (fun e => e.section_name == "Industry Sectors")
      = ((smap "Industry Sectors").filter (· ≠ "")).map
          (fun v => ⟨"Industry Sectors", Json.str v⟩))
    ∧ ((assemble contact smap projects).filter
          (fun e => e.section_name == "Languages Spoken")
      = ((smap "Languages Spoken").filter (· ≠ "")).map
          (fun v => ⟨"Languages Spoken", Json.str v⟩))
    ∧ ((assemble contact smap projects).filter
          (fun e => e.section_name == "Certifications")
      = ((smap "Certifications").filter (· ≠ "")).map
          (fun v => ⟨"Certifications", Json.str v⟩))
    ∧ ((assemble contact smap projects).filter
          (fun e => e.section_name == "Methodologies")
      = ((smap "Methodologies").filter (· ≠ "")).map
          (fun v => ⟨"Methodologies", Json.str v⟩))
    ∧ ((assemble contact smap projects).filter
          (fun e => e.section_name == "Experience")
      = projects.map (fun r => ⟨"Experience", projToJson r⟩)) := by
  refine ⟨?_, ?_, ?_, ?_, ?_, ?_, ?_, ?_, ?_, ?_, ?_, ?_⟩ <;>
    · rw [assemble]
      simp only [List.filter_append, filter_contactEntries, filter_longformEntries,
        filter_bulletEntries, filter_expEntries]
      simp [contactEntries, longformEntries_eq_if, bulletEntries, expEntries]

/-- C6 counterexample: in a full pipeline run the Name entry's content is
the bare string `"A. Smith"` — not a one-element list as the claim
states for longform sections (contrast the Executive Summary entry, which
does carry a list). -/
theorem claim_C6_cx :
    parseFromSpans ["A. Smith - “Senior Consultant”", "Executive Summary", "Did stuff"]
      = .ok ⟨none, [⟨"Name", .str "A. Smith"⟩,
                    ⟨"Job Title", .str "Senior Consultant"⟩,
                    ⟨"Executive Summary", .arr [.str "Did stuff"]⟩]⟩
    ∧ Json.isArr (Json.str "A. Smith") = false
    ∧ Json.isArr (Json.arr [Json.str "Did stuff"]) = true :=
  ⟨rfl, rfl, rfl⟩

theorem assemble_names (contact : ContactInfo) (smap : String → List String)
    (projects : List ProjRec) :
    ∀ e ∈ assemble contact smap projects,
      e.section_name ∈ REQUIRED_SECTIONS := by
  intro e he
  rw [assemble] at he
  simp only [List.append_assoc, List.mem_append] at he
  rcases he with h | h | h | h | h | h | h | h | h | h | h | h
  · rw [contactEntries_names _ _ e h]; decide
  · rw [contactEntries_names _ _ e h]; decide
  · rw [contactEntries_names _ _ e h]; decide
  · rw [longformEntries_names _ _ e h]; decide
  · rw [bulletEntries_names _ _ e h]; decide
  · rw [bulletEntries_names _ _ e h]; decide
  · rw [expEntries_names _ e h]; decide
  · rw [longformEntries_names _ _ e h]; decide
  · rw [bulletEntries_names _ _ e h]; decide
  · rw [bulletEntries_names _ _ e h]; decide
  · rw [bulletEntries_names _ _ e h]; decide
  · rw [bulletEntries_names _ _ e h]; decide

/-- C10: every section entry of a successfully assembled document carries
one of the twelve recognized section names — the assembly loop iterates
the fixed key set of `sections_map`, so no other name can be emitted. -/
theorem claim_C10_section_names (content : List Item) (doc : ProfileDoc)
    (hok : _parse_profile content = .ok doc) :
    ∀ e ∈ doc.sections, e.section_name ∈ REQUIRED_SECTIONS := by
  unfold _parse_profile at hok
  split at hok
  · cases hok
  · dsimp only at hok
    split at hok
    · cases hok
    · injection hok with hok
      rw [← hok]
      apply assemble_names

/-- C10 witness: a concrete successful parse; the first emitted entry's
name is among the twelve recognized section names. -/
theorem claim_C10_witness :
    _parse_profile [⟨none, "A. Smith - “Boss”"⟩]
      = .ok ⟨none, [⟨"Name", .str "A. Smith"⟩, ⟨"Job Title", .str "Boss"⟩]⟩
    ∧ (SectionEntry.mk "Name" (.str "A. Smith")).section_name ∈ REQUIRED_SECTIONS :=
  ⟨rfl, claim_C10_section_names [⟨none, "A. Smith - “Boss”"⟩]
    ⟨none, [⟨"Name", .str "A. Smith"⟩, ⟨"Job Title", .str "Boss"⟩]⟩ rfl
    ⟨"Name", .str "A. Smith"⟩ (List.mem_cons_self _ _)⟩

/-! ### Strip idempotence and reader/aggregation decomposition lemmas -/

theorem dropWhile_head_false {p : Char → Bool} {l : List Char} {c : Char}
    {t : List Char} (h : l.dropWhile p = c :: t) : p c = false := by
  have hh := List.head?_dropWhile_not p l
  rw [h] at hh
  simpa using hh

theorem dropWhile_dropWhile (p : Char → Bool) (l : List Char) :
    (l.dropWhile p).dropWhile p = l.dropWhile p := by
  cases h : l.dropWhile p with
  | nil => rfl
  | cons c t =>
      have hc := dropWhile_head_false h
      simp [List.dropWhile, hc]

theorem pyStripList_idem (l : List Char) :
    pyStripList (pyStripList l) = pyStripList l := by
  show pyStripList (((l.dropWhile isSpaceChar).reverse.dropWhile isSpaceChar).reverse)
    = ((l.dropWhile isSpaceChar).reverse.dropWhile isSpaceChar).reverse
  cases hm : l.dropWhile isSpaceChar with
  | nil => rfl
  | cons c t =>
      cases hr : ((c :: t).reverse.dropWhile isSpaceChar) with
      | nil => rfl
      | cons d rt =>
          have hc : isSpaceChar c = false := dropWhile_head_false hm
          have hd : isSpaceChar d = false := dropWhile_head_false hr
          have hpref : (d :: rt).reverse
              ++ ((c :: t).reverse.takeWhile isSpaceChar).reverse = c :: t := by
            have hsplit := List.takeWhile_append_dropWhile isSpaceChar (c :: t).reverse
            rw [hr] at hsplit
            have hsplit2 := congrArg List.reverse hsplit
            simpa [List.reverse_append] using hsplit2
          obtain ⟨a, t', ha⟩ : ∃ a t', (d :: rt).reverse = a :: t' := by
            cases hx : (d :: rt).reverse with
            | nil =>
                have := congrArg List.length hx
                simp at this
            | cons a t' => exact ⟨a, t', rfl⟩
          have hac : a = c := by
            rw [ha, List.cons_append] at hpref
            injection hpref
          have hfirst : (d :: rt).reverse.dropWhile isSpaceChar = (d :: rt).reverse := by
            rw [ha, List.dropWhile]
            rw [hac, hc]
          show (((d :: rt).reverse.dropWhile isSpaceChar).reverse.dropWhile
              isSpaceChar).reverse = (d :: rt).reverse
          rw [hfirst, List.reverse_reverse, List.dropWhile, hd]

theorem pyStrip_idem (s : String) : pyStrip (pyStrip s) = pyStrip s :=
  String.ext_iff.mpr (pyStripList_idem s.data)

theorem readAux_not_heading (c : Option String) (s : String) (post : List String)
    (hns : pyStrip s ∉ REQUIRED_SECTIONS) :
    readAux c (s :: post) = ⟨c, pyStrip s⟩ :: readAux c post := by
  rw [readAux]
  simp [hns]

theorem readAux_heading (c : Option String) (s : String) (post : List String)
    (hs : pyStrip s ∈ REQUIRED_SECTIONS) :
    readAux c (s :: post) = readAux (some (pyStrip s)) post := by
  rw [readAux]
  simp [hs]

theorem rdCursor_heading (c : Option String) (s : String) (post : List String)
    (hs : pyStrip s ∈ REQUIRED_SECTIONS) :
    rdCursor c (s :: post) = rdCursor (some (pyStrip s)) post := by
  rw [rdCursor]
  simp [hs]

theorem rdCursor_not_heading (c : Option String) (s : String) (post : List String)
    (hns : pyStrip s ∉ REQUIRED_SECTIONS) :
    rdCursor c (s :: post) = rdCursor c post := by
  rw [rdCursor]
  simp [hns]

theorem readAux_append (l1 : List String) :
    ∀ (c : Option String) (l2 : List String),
      readAux c (l1 ++ l2) = readAux c l1 ++ readAux (rdCursor c l1) l2 := by
  induction l1 with
  | nil => intro c l2; rfl
  | cons s rest ih =>
      intro c l2
      rw [List.cons_append]
      by_cases hs : pyStrip s ∈ REQUIRED_SECTIONS
      · rw [readAux_heading c s (rest ++ l2) hs, readAux_heading c s rest hs,
          rdCursor_heading c s rest hs]
        exact ih (some (pyStrip s)) l2
      · rw [readAux_not_heading c s (rest ++ l2) hs, readAux_not_heading c s rest hs,
          rdCursor_not_heading c s rest hs]
        rw [ih c l2]
        rfl

theorem aggAux_append (l1 : List Item) :
    ∀ (c : Option String) (l2 : List Item) (sec : String),
      aggAux c (l1 ++ l2) sec = aggAux c l1 sec ++ aggAux (agCursor c l1) l2 sec := by
  induction l1 with
  | nil => intro c l2 sec; rfl
  | cons i rest ih =>
      intro c l2 sec
      rw [List.cons_append, aggAux, aggAux, agCursor]
      rw [ih _ l2 sec]
      rw [List.append_assoc]

/-- Well-formed cursors: unset, or set to a recognized section name. -/
def CurOK (c : Option String) : Prop :=
  c = none ∨ ∃ h ∈ REQUIRED_SECTIONS, c = some h

theorem rdCursor_ok (spans : List String) :
    ∀ (c : Option String), CurOK c → CurOK (rdCursor c spans) := by
  induction spans with
  | nil => intro c hc; exact hc
  | cons s rest ih =>
      intro c hc
      rw [rdCursor]
      by_cases hs : pyStrip s ∈ REQUIRED_SECTIONS
      · simp only [hs, if_true]
        exact ih (some (pyStrip s)) (Or.inr ⟨pyStrip s, hs, rfl⟩)
      · simp only [hs, if_false]
        exact ih c hc

/-- If the reader's cursor ends unset, it never was set: the start cursor
was unset and every emitted item carries an unset hint, so the
aggregation cursor passes through unchanged. -/
theorem rdCursor_none (spans : List String) :
    ∀ (c : Option String), rdCursor c spans = none →
      c = none ∧ ∀ c', agCursor c' (readAux c spans) = c' := by
  induction spans with
  | nil =>
      intro c hc
      exact ⟨hc, fun c' => rfl⟩
  | cons s rest ih =>
      intro c hc
      rw [rdCursor] at hc
      by_cases hs : pyStrip s ∈ REQUIRED_SECTIONS
      · rw [if_pos hs] at hc
        rcases ih (some (pyStrip s)) hc with ⟨habs, _⟩
        cases habs
      · rw [if_neg hs] at hc
        rcases ih c hc with ⟨hcn, hagg⟩
        subst hcn
        refine ⟨rfl, fun c' => ?_⟩
        rw [readAux_not_heading none s rest hs, agCursor]
        exact hagg c'

/-! ## Claim C7: unrecognized heading text -/

theorem aggAux_cons (A : Option String) (hint : Option String) (t : String)
    (tail : List Item) (sec : String) :
    aggAux A (⟨hint, t⟩ :: tail) sec
      = (if hintStep A hint = some sec ∧ sec ≠ "" ∧ pyStrip t ≠ ""
            ∧ sec ∈ REQUIRED_SECTIONS
         then [pyStrip t] else []) ++ aggAux (hintStep A hint) tail sec := rfl

theorem R12_stripped : ∀ h ∈ REQUIRED_SECTIONS, pyStrip h = h ∧ h ≠ "" := by decide

/-- C7: a span whose (stripped) text is not one of the twelve recognized
section names never changes the reader's active section — the spans after
it are tagged exactly as if it were absent — and during aggregation its
text is attributed to the currently active recognized section when one is
set and the text is nonempty, and to no section otherwise.  The second
equation quantifies over every section `sec`, so the text lands nowhere
else; processing never errors. -/
theorem claim_C7_unrecognized (pre post : List String) (s : String)
    (hns : pyStrip s ∉ REQUIRED_SECTIONS) :
    _read_pdf_with_metadata (pre ++ s :: post)
      = _read_pdf_with_metadata pre
        ++ ⟨rdCursor none pre, pyStrip s⟩ :: readAux (rdCursor none pre) post
    ∧ ∀ sec : String,
        aggregate (_read_pdf_with_metadata (pre ++ s :: post)) sec
          = aggregate (_read_pdf_with_metadata pre) sec
            ++ (if rdCursor none pre = some sec ∧ pyStrip s ≠ ""
                then [pyStrip s] else [])
            ++ aggAux (rdCursor none pre) (readAux (rdCursor none pre) post) sec := by
  have hsplit : readAux none (pre ++ s :: post)
      = readAux none pre
        ++ ⟨rdCursor none pre, pyStrip s⟩ :: readAux (rdCursor none pre) post := by
    rw [readAux_append pre none (s :: post), readAux_not_heading _ s post hns]
  refine ⟨hsplit, fun sec => ?_⟩
  show aggAux none (readAux none (pre ++ s :: post)) sec = _
  rw [hsplit, aggAux_append (readAux none pre) none _ sec, aggAux_cons]
  rcases hact : rdCursor none pre with _ | h
  · rcases rdCursor_none pre none hact with ⟨_, hagg⟩
    simp only [hintStep]
    rw [hagg none]
    rw [if_neg (fun hcontra =>
          Option.noConfusion (hcontra : (none : Option String) = some sec
            ∧ sec ≠ "" ∧ pyStrip (pyStrip s) ≠ "" ∧ sec ∈ REQUIRED_SECTIONS).1),
        if_neg (fun hcontra =>
          Option.noConfusion (hcontra : (none : Option String) = some sec
            ∧ pyStrip s ≠ "").1)]
    simp [aggregate, _read_pdf_with_metadata]
  · have hok : CurOK (rdCursor none pre) := rdCursor_ok pre none (Or.inl rfl)
    rw [hact] at hok
    have hmem : h ∈ REQUIRED_SECTIONS := by
      rcases hok with habs | ⟨h', hmem', heq⟩
      · cases habs
      · injection heq with heq'
        rw [heq']
        exact hmem'
    rcases R12_stripped h hmem with ⟨hstrip, hne⟩
    have hstep : ∀ A : Option String, hintStep A (some h) = some h := by
      intro A
      simp only [hintStep]
      rw [if_neg hne, hstrip]
    rw [hstep]
    have hiff : (some h = some sec ∧ sec ≠ "" ∧ pyStrip (pyStrip s) ≠ ""
          ∧ sec ∈ REQUIRED_SECTIONS)
        ↔ (some h = some sec ∧ pyStrip s ≠ "") := by
      rw [pyStrip_idem]
      constructor
      · rintro ⟨h1, _, h3, _⟩
        exact ⟨h1, h3⟩
      · rintro ⟨h1, h2⟩
        have hsec : h = sec := by injection h1
        refine ⟨h1, ?_, h2, ?_⟩
        · rw [← hsec]; exact hne
        · rw [← hsec]; exact hmem
    rw [if_congr hiff (by rw [pyStrip_idem]) rfl]
    simp [aggregate, _read_pdf_with_metadata]

/-- C7 witness: inserting the unrecognized line `Random Stuff` after an
`Executive Summary` heading attributes its text to Executive Summary and
leaves the cursor for the following span unchanged. -/
theorem claim_C7_witness :
    pyStrip "Random Stuff" ∉ REQUIRED_SECTIONS
    ∧ aggregate (_read_pdf_with_metadata
          (["Executive Summary", "alpha"] ++ "Random Stuff" :: ["tail txt"]))
          "Executive Summary"
      = aggregate (_read_pdf_with_metadata ["Executive Summary", "alpha"])
          "Executive Summary"
        ++ (if rdCursor none ["Executive Summary", "alpha"]
              = some "Executive Summary" ∧ pyStrip "Random Stuff" ≠ ""
            then [pyStrip "Random Stuff"] else [])
        ++ aggAux (rdCursor none ["Executive Summary", "alpha"])
            (readAux (rdCursor none ["Executive Summary", "alpha"]) ["tail txt"])
            "Executive Summary" :=
  ⟨by decide,
   (claim_C7_unrecognized ["Executive Summary", "alpha"] ["tail txt"]
      "Random Stuff" (by decide)).2 "Executive Summary"⟩

/-! ### Non-whitespace facts about extracted values (for C9) -/

theorem upper_not_space {c : Char} (h : isUpperChar c = true) :
    isSpaceChar c = false := by
  cases hs : isSpaceChar c
  · rfl
  · exfalso
    unfold isSpaceChar at hs
    simp only [Bool.or_eq_true, decide_eq_true_eq] at hs
    rcases hs with ((((h1 | h1) | h1) | h1) | h1) | h1 <;> (subst h1; revert h; decide)

theorem upper_not_dash {c : Char} (h : isUpperChar c = true) :
    isDash c = false := by
  cases hs : isDash c
  · rfl
  · exfalso
    unfold isDash at hs
    simp only [Bool.or_eq_true, decide_eq_true_eq] at hs
    rcases hs with (h1 | h1) | h1 <;> (subst h1; revert h; decide)

theorem matchContactHeader_head {hd : String}
    (hm : matchContactHeader hd = true) :
    ∃ c0 rest, hd.data = c0 :: rest ∧ isUpperChar c0 = true := by
  unfold matchContactHeader at hm
  cases h1 : hd.data with
  | nil => rw [h1] at hm; cases hm
  | cons c0 t1 =>
      cases t1 with
      | nil => rw [h1] at hm; cases hm
      | cons c1 t2 =>
          cases t2 with
          | nil => rw [h1] at hm; cases hm
          | cons c2 t3 =>
              rw [h1] at hm
              simp only [Bool.and_eq_true] at hm
              exact ⟨c0, c1 :: c2 :: t3, rfl, hm.1.1.1⟩

theorem sdGo_first (fuel : Nat) :
    ∀ (acc l : List Char), ∃ p t, sdGo fuel acc l = (acc.reverse ++ p) :: t := by
  induction fuel with
  | zero => intro acc l; exact ⟨[], [], by simp [sdGo]⟩
  | succ n ih =>
      intro acc l
      cases l with
      | nil => exact ⟨[], [], by simp [sdGo]⟩
      | cons c rest =>
          cases hda : dashAfterWs (c :: rest) with
          | some r =>
              refine ⟨[], sdGo n [] r, ?_⟩
              rw [sdGo]
              simp [hda]
          | none =>
              rcases ih (c :: acc) rest with ⟨p, t, hpt⟩
              refine ⟨c :: p, t, ?_⟩
              rw [sdGo]
              simp only [hda]
              rw [hpt]
              simp

theorem splitDashes_head_strOK {hd p0 : String} {rest0 : List String}
    (hm : matchContactHeader hd = true)
    (hsd : splitDashes hd = p0 :: rest0) : strOK p0 = true := by
  rcases matchContactHeader_head hm with ⟨c0, rest, hdata, hup⟩
  have hda : dashAfterWs (c0 :: rest) = none := by
    rw [dashAfterWs, upper_not_dash hup, upper_not_space hup]
    simp
  unfold splitDashes at hsd
  rw [hdata] at hsd
  have hlen : (c0 :: rest).length + 1 = (rest.length + 1) + 1 := by simp
  rw [hlen] at hsd
  rw [sdGo] at hsd
  simp only [hda] at hsd
  rcases sdGo_first (rest.length + 1) [c0] rest with ⟨p, t, hpt⟩
  rw [hpt] at hsd
  simp only [List.map_cons] at hsd
  have hp0 : p0 = ⟨([c0].reverse ++ p : List Char)⟩ := by
    injection hsd with h1 _
    exact h1.symm
  have hc0mem : c0 ∈ p0.data := by
    rw [hp0]
    simp
  exact strOK_of_mem hc0mem (upper_not_space hup)

theorem emailAtAfterLocal_shape {loc x m : List Char}
    (h : emailAtAfterLocal loc x = some m) : ∃ b, m = loc ++ '@' :: b := by
  cases x with
  | nil => cases h
  | cons c r2 =>
      rw [emailAtAfterLocal] at h
      by_cases hc : c = '@'
      · rw [if_pos hc] at h
        rcases hdom : r2.takeWhile isDomainChar with _ | ⟨d0, dr⟩
        · rw [hdom] at h; cases h
        · rw [hdom] at h
          dsimp only at h
          rcases hdm : dmAfterOne dr with _ | dm
          · rw [hdm] at h; cases h
          · rw [hdm] at h
            injection h with h'
            exact ⟨d0 :: dm, h'.symm⟩
      · rw [if_neg hc] at h; cases h

theorem emailAt_shape {l m : List Char} (h : emailAt l = some m) :
    ∃ a b, m = a ++ '@' :: b := by
  unfold emailAt at h
  rcases hloc : l.takeWhile isLocalChar with _ | ⟨lc, loct⟩
  · rw [hloc] at h; cases h
  · rw [hloc] at h
    rcases emailAtAfterLocal_shape h with ⟨b, hb⟩
    exact ⟨lc :: loct, b, hb⟩

theorem searchEmailChars_at {l m : List Char} (h : searchEmailChars l = some m) :
    '@' ∈ m := by
  induction l with
  | nil => cases h
  | cons c rest ih =>
      rw [searchEmailChars] at h
      cases he : emailAt (c :: rest) with
      | some m' =>
          rw [he] at h
          injection h with h'
          rcases emailAt_shape he with ⟨a, b, hab⟩
          rw [← h', hab]
          simp
      | none =>
          rw [he] at h
          exact ih h

theorem searchEmail_strOK {s m : String} (h : searchEmail s = some m) :
    strOK m = true := by
  unfold searchEmail at h
  rcases Option.map_eq_some'.mp h with ⟨lm, hlm, hmk⟩
  have hat : '@' ∈ m.data := by
    rw [← hmk]
    exact searchEmailChars_at hlm
  exact strOK_of_mem hat (by decide)

/-- Every value the aggregation loop collects is non-whitespace: it is a
stripped text that passed the nonempty check. -/
theorem aggAux_strOK (items : List Item) :
    ∀ (c : Option String) (sec v : String),
      v ∈ aggAux c items sec → strOK v = true := by
  induction items with
  | nil => intro c sec v hv; cases hv
  | cons i rest ih =>
      intro c sec v hv
      rw [aggAux] at hv
      rcases List.mem_append.mp hv with hv1 | hv2
      · by_cases hcond : hintStep c i.sect = some sec ∧ sec ≠ ""
            ∧ pyStrip i.text ≠ "" ∧ sec ∈ REQUIRED_SECTIONS
        · rw [if_pos hcond] at hv1
          have : v = pyStrip i.text := by
            rcases hv1 with _ | ⟨_, hx⟩
            · rfl
            · cases hx
          rw [this]
          exact strOK_pyStrip hcond.2.2.1
        · rw [if_neg hcond] at hv1
          cases hv1
      · exact ih (hintStep c i.sect) sec v hv2

theorem contentOK_arr {vals : List String}
    (h : ∀ v ∈ vals, strOK v = true) :
    contentOK (Json.arr (vals.map Json.str)) = true := by
  show (vals.map Json.str).all _ = true
  rw [List.all_eq_true]
  intro x hx
  rcases List.mem_map.mp hx with ⟨v, hv, hveq⟩
  rw [← hveq]
  exact h v hv

/-- Inversion of a successful contact extraction: the name is the first
piece of a pattern-matching header's dash split, and the email (when set)
is the email match of some input fragment. -/
theorem extract_ok_inv (content content' : List Item) (contact : ContactInfo)
    (h : _extract_contact_information content = (content', .ok contact)) :
    (∃ hd p0 prest, matchContactHeader hd = true
        ∧ splitDashes hd = p0 :: prest ∧ contact.name = some p0)
    ∧ (contact.email = none
        ∨ ∃ m, contact.email = some m
            ∧ ∃ it ∈ content, searchEmail it.text = some m) := by
  unfold _extract_contact_information at h
  rcases hscan : scanLoop content.length content 0 none none with ⟨c', hdr, em⟩
  rw [hscan] at h
  cases hdr with
  | none =>
      exfalso
      have h2 := congrArg Prod.snd h
      cases h2
  | some hd =>
      have hhd : (scanLoop content.length content 0 none none).2.1 = some hd := by
        rw [hscan]
      rcases scanLoop_header_src content.length content 0 none none hd hhd with
        habs | ⟨it, _, hittext, hitm⟩
      · cases habs
      rw [contactFinish] at h
      rcases hsd : splitDashes hd with _ | ⟨p0, tl⟩
      · rw [hsd] at h
        have h2 := congrArg Prod.snd h
        cases h2
      cases tl with
      | nil =>
          rw [hsd] at h
          have h2 := congrArg Prod.snd h
          cases h2
      | cons p1 prest =>
          rw [hsd] at h
          have h2 := congrArg Prod.snd h
          dsimp only at h2
          injection h2 with h2'
          constructor
          · exact ⟨hd, p0, p1 :: prest, hitm, hsd, by rw [← h2']⟩
          · cases em with
            | none => exact Or.inl (by rw [← h2']; rfl)
            | some m =>
                by_cases hm : m = ""
                · refine Or.inl ?_
                  rw [← h2', hm]
                  simp
                · refine Or.inr ⟨m, ?_, ?_⟩
                  · rw [← h2']
                    show (if (some m : Option String) = some "" then none else some m) = some m
                    rw [if_neg (fun hcontra => hm (Option.some.inj hcontra))]
                  · have hem : (scanLoop content.length content 0 none none).2.2
                        = some m := by rw [hscan]
                    rcases scanLoop_email_src content.length content 0 none none m hem
                      with habs | hsrc
                    · cases habs
                    · exact hsrc

theorem helper_ok_fields {line : String} {hd : ExpHeader}
    (h : _experienceHeaderHelper line = .ok hd) :
    nullOrStrOK (optStrJson hd.project_title) = true
    ∧ nullOrStrOK (optStrJson hd.project_position) = true
    ∧ nullOrStrOK (optStrJson hd.project_industry) = true := by
  unfold _experienceHeaderHelper at h
  dsimp only at h
  have hfield : ∀ (i : Nat) (s : String),
      (((splitSpacedDashes (pyStrip (removeBullets line))).map pyStrip).filter
        (fun x => x ≠ "")).get? i = some s →
      s ≠ "" ∧ strOK s = true := by
    intro i s hs
    have hmem := List.get?_mem hs
    rcases List.mem_filter.mp hmem with ⟨hmm, hne⟩
    have hne' : s ≠ "" := by simpa using hne
    rcases List.mem_map.mp hmm with ⟨u, _, hu⟩
    refine ⟨hne', ?_⟩
    rw [← hu]
    rw [← hu] at hne'
    exact strOK_pyStrip hne'
  rcases h0 : (((splitSpacedDashes (pyStrip (removeBullets line))).map pyStrip).filter
      (fun x => x ≠ "")).get? 0 with _ | s0
  · rw [h0] at h; cases h
  rcases h1 : (((splitSpacedDashes (pyStrip (removeBullets line))).map pyStrip).filter
      (fun x => x ≠ "")).get? 1 with _ | s1
  · rw [h0, h1] at h; cases h
  rcases h2 : (((splitSpacedDashes (pyStrip (removeBullets line))).map pyStrip).filter
      (fun x => x ≠ "")).get? 2 with _ | s2
  · rw [h0, h1, h2] at h; cases h
  rw [h0, h1, h2] at h
  dsimp only at h
  injection h with h'
  rcases hfield 0 s0 h0 with ⟨hne0, hok0⟩
  rcases hfield 1 s1 h1 with ⟨hne1, hok1⟩
  rcases hfield 2 s2 h2 with ⟨hne2, hok2⟩
  rw [← h']
  refine ⟨?_, ?_, ?_⟩
  · show nullOrStrOK (optStrJson (if s0 = "" then none else some s0)) = true
    rw [if_neg hne0]
    exact hok0
  · show nullOrStrOK (optStrJson (if s1 = "" then none else some s1)) = true
    rw [if_neg hne1]
    exact hok1
  · show nullOrStrOK (optStrJson (if s2 = "" then none else some s2)) = true
    rw [if_neg hne2]
    exact hok2

theorem contentOK_proj (r : ProjRec)
    (h1 : nullOrStrOK (optStrJson r.project_header.project_title) = true)
    (h2 : nullOrStrOK (optStrJson r.project_header.project_position) = true)
    (h3 : nullOrStrOK (optStrJson r.project_header.project_industry) = true)
    (hds : ∀ ds, r.project_details = some ds → ∀ d ∈ ds, strOK d = true) :
    contentOK (projToJson r) = true := by
  rcases r with ⟨⟨t, p, i⟩, d⟩
  dsimp only at h1 h2 h3 hds
  cases d with
  | none =>
      show (nullOrStrOK (optStrJson t) && nullOrStrOK (optStrJson p)
        && nullOrStrOK (optStrJson i) && true) = true
      rw [h1, h2, h3]
      rfl
  | some ds =>
      have hall : (ds.map Json.str).all
          (fun x => match x with | Json.str s => strOK s | _ => false) = true := by
        rw [List.all_eq_true]
        intro x hx
        rcases List.mem_map.mp hx with ⟨v, hv, hveq⟩
        rw [← hveq]
        exact hds ds rfl v hv
      show (nullOrStrOK (optStrJson t) && nullOrStrOK (optStrJson p)
        && nullOrStrOK (optStrJson i)
        && (ds.map Json.str).all
             (fun x => match x with | Json.str s => strOK s | _ => false)) = true
      rw [h1, h2, h3, hall]
      rfl

theorem contactEntries_mem {s : String} {v : Option String} {e : SectionEntry}
    (h : e ∈ contactEntries s v) :
    ∃ t, v = some t ∧ t ≠ "" ∧ e = ⟨s, Json.str t⟩ := by
  cases v with
  | none => cases h
  | some t =>
      rw [contactEntries] at h
      by_cases ht : t = ""
      · rw [if_pos ht] at h; cases h
      · rw [if_neg ht] at h
        rcases h with _ | ⟨_, hx⟩
        · exact ⟨t, rfl, ht, rfl⟩
        · cases hx

theorem longformEntries_mem {s : String} {vals : List String} {e : SectionEntry}
    (h : e ∈ longformEntries s vals) :
    e = ⟨s, Json.arr (vals.map Json.str)⟩ := by
  cases vals with
  | nil => cases h
  | cons a t =>
      rcases h with _ | ⟨_, hx⟩
      · rfl
      · cases hx

theorem bulletEntries_mem {s : String} {vals : List String} {e : SectionEntry}
    (h : e ∈ bulletEntries s vals) :
    ∃ v, v ∈ vals ∧ e = ⟨s, Json.str v⟩ := by
  rw [bulletEntries] at h
  rcases List.mem_map.mp h with ⟨v, hv, hveq⟩
  exact ⟨v, (List.mem_filter.mp hv).1, hveq.symm⟩

theorem expEntries_mem {projects : List ProjRec} {e : SectionEntry}
    (h : e ∈ expEntries projects) :
    ∃ r ∈ projects, e = ⟨"Experience", projToJson r⟩ := by
  rcases List.mem_map.mp h with ⟨r, hr, hveq⟩
  exact ⟨r, hr, hveq.symm⟩

/-! ## Claim C9: whitespace in output contents -/

/-- C9 (amended): in every successfully produced document, every section
entry other than Job Title has whitespace-free content: each content
string (bare, in a list, or inside a project record) is neither empty nor
whitespace-only.  Job Title must be exempted: the quoted phrase of a
contact header is only quote-stripped, never whitespace-checked, so a
whitespace-only Job Title can be emitted (see the counterexample). -/
theorem claim_C9_ws_free (spans : List String) (doc : ProfileDoc)
    (hok : parseFromSpans spans = .ok doc) :
    ∀ e ∈ doc.sections, e.section_name ≠ "Job Title" →
      contentOK e.section_content = true := by
  unfold parseFromSpans _parse_profile at hok
  split at hok
  · cases hok
  · rename_i content' contact heq1
    dsimp only at hok
    split at hok
    · cases hok
    · rename_i projects heq2
      injection hok with hok
      intro e he hne
      rw [← hok] at he
      dsimp only at he
      rcases extract_ok_inv _ content' contact heq1 with
        ⟨⟨hd, p0, prest, hhdm, hhsd, hname⟩, hemail⟩
      have hexpOK : ∀ r ∈ projects,
          contentOK (projToJson r) = true := by
        intro r hr
        by_cases hexp : aggregate content' "Experience" = []
        · rw [if_pos hexp] at heq2
          injection heq2 with heq2'
          rw [← heq2'] at hr
          cases hr
        · rw [if_neg hexp] at heq2
          rw [_experience_section_helper] at heq2
          rcases expGo_provenance (aggregate content' "Experience") none [] []
              projects heq2 r hr with ⟨hhd2, hdet2⟩
          rcases hhd2 with habs | ⟨line, _, _, hhelper⟩
          · cases habs
          rcases helper_ok_fields hhelper with ⟨hf1, hf2, hf3⟩
          refine contentOK_proj r hf1 hf2 hf3 ?_
          intro ds hds d hdmem
          rcases hdet2 ds hds d hdmem with ⟨d0, hd0, _⟩ | ⟨c0, hc0, _⟩ | ⟨hdl, _⟩
          · cases hd0
          · cases hc0
          · exact aggAux_strOK _ none "Experience" d hdl
      rw [assemble] at he
      simp only [List.append_assoc, List.mem_append] at he
      rcases he with h | h | h | h | h | h | h | h | h | h | h | h
      · rcases contactEntries_mem h with ⟨t, hv, htne, heqe⟩
        rw [hname] at hv
        injection hv with hv'
        rw [heqe]
        show strOK t = true
        rw [← hv']
        exact splitDashes_head_strOK hhdm hhsd
      · rcases contactEntries_mem h with ⟨t, hv, htne, heqe⟩
        rcases hemail with hnone | ⟨m, hm, it, _, hsearch⟩
        · rw [hnone] at hv; cases hv
        · rw [hm] at hv
          injection hv with hv'
          rw [heqe]
          show strOK t = true
          rw [← hv']
          exact searchEmail_strOK hsearch
      · rcases contactEntries_mem h with ⟨t, hv, htne, heqe⟩
        exfalso
        apply hne
        rw [heqe]
      · rw [longformEntries_mem h]
        exact contentOK_arr (fun v hv => aggAux_strOK _ none _ v hv)
      · rcases bulletEntries_mem h with ⟨v, hv, heqe⟩
        rw [heqe]
        exact aggAux_strOK _ none _ v hv
      · rcases bulletEntries_mem h with ⟨v, hv, heqe⟩
        rw [heqe]
        exact aggAux_strOK _ none _ v hv
      · rcases expEntries_mem h with ⟨r, hr, heqe⟩
        rw [heqe]
        exact hexpOK r hr
      · rw [longformEntries_mem h]
        exact contentOK_arr (fun v hv => aggAux_strOK _ none _ v hv)
      · rcases bulletEntries_mem h with ⟨v, hv, heqe⟩
        rw [heqe]
        exact aggAux_strOK _ none _ v hv
      · rcases bulletEntries_mem h with ⟨v, hv, heqe⟩
        rw [heqe]
        exact aggAux_strOK _ none _ v hv
      · rcases bulletEntries_mem h with ⟨v, hv, heqe⟩
        rw [heqe]
        exact aggAux_strOK _ none _ v hv
      · rcases bulletEntries_mem h with ⟨v, hv, heqe⟩
        rw [heqe]
        exact aggAux_strOK _ none _ v hv

/-- C9 counterexample: the header `A. Smith - “ ”` carries a quoted
phrase that strips the quotes to a bare space; the pipeline emits it as
the Job Title content even though the input also contains the
whitespace-only fragment `" "` — a whitespace-only string equal to a
fragment's text reaches the output document. -/
theorem claim_C9_cx :
    parseFromSpans ["A. Smith - “ ”", " "]
      = .ok ⟨none, [⟨"Name", .str "A. Smith"⟩, ⟨"Job Title", .str " "⟩]⟩
    ∧ pyStrip " " = ""
    ∧ (" " : String) ≠ "" :=
  ⟨rfl, rfl, by decide⟩

/-- C9 witness: a concrete successful parse; the Name entry's content is
whitespace-free. -/
theorem claim_C9_witness :
    parseFromSpans ["A. Smith - “Senior Consultant”", "Executive Summary", "Did things"]
      = .ok ⟨none, [⟨"Name", .str "A. Smith"⟩,
                    ⟨"Job Title", .str "Senior Consultant"⟩,
                    ⟨"Executive Summary", .arr [.str "Did things"]⟩]⟩
    ∧ contentOK (Json.str "A. Smith") = true :=
  ⟨rfl, claim_C9_ws_free
    ["A. Smith - “Senior Consultant”", "Executive Summary", "Did things"]
    ⟨none, [⟨"Name", .str "A. Smith"⟩,
            ⟨"Job Title", .str "Senior Consultant"⟩,
            ⟨"Executive Summary", .arr [.str "Did things"]⟩]⟩ rfl
    ⟨"Name", .str "A. Smith"⟩ (List.mem_cons_self _ _) (by decide)⟩
